import Mathlib

/-!
# Vivid Sydney 2026 — reminder store and toast notifier (`src/js/script.js`)

A shallow embedding of the script and the properties of its reminder store
(`saveReminder`, `clearReminder`, `getReminder`, `updateReminderBtnState`,
`handleReminderClick`) and of its notifier (`toast`, `removeToast`).

The script runs against browser primitives that are not part of the repository.
They are modelled explicitly:

* `localStorage` — an association list of string keys and string values
  (`Storage`, `getItem`, `setItem`, `removeItem`);
* `JSON.parse` — a recursive-descent parser of the JSON grammar (`JSON.parse`),
  `JSON.stringify` — the serialisation of the object literal built by
  `saveReminder` (`JSON.stringify`);
* `new Date().toISOString()` — proleptic Gregorian formatting of a time value in
  milliseconds since the epoch (`toISOString`), `Date.parse` on that format
  (`Date.parse`);
* timers, animation frames and the toast elements of the document — fields of
  `State`, driven by `Event`s through `step`. Timer handles are positive and
  issued in increasing order, so a handle is never reused. A timer may expire at
  any moment while it is active: the order in which the event loop takes the
  events is not fixed, so what holds for every sequence of events holds for the
  orders a browser produces. The delay of a timer is recorded as it is passed to
  `setTimeout`.

The clock is an input: `saveReminder` and the click on the reminder button take
the reading `now` of `new Date()`, in milliseconds since the epoch.

`State.trace` records the calls of the action callback, of the removal effect of
`removeToast` and of the timer callbacks, each written by the function that runs.
It is written and never read by the functions of the script; it is there to count
how often they run.

Strings are Lean strings (sequences of Unicode scalar values); a JavaScript
string holding an unpaired surrogate has no counterpart here. Storage writes and
DOM operations succeed, as the script assumes.
-/

namespace VividSydney

/-! ## localStorage -/

/-- The entries of `localStorage`: keys with their values. -/
abbrev Storage := List (String × String)

/-- `localStorage.getItem(key)`: the value stored under `key`, `none` for JavaScript `null`. -/
def getItem : Storage → String → Option String
  | [], _ => none
  | (k, v) :: rest, key => if k = key then some v else getItem rest key

/-- `localStorage.removeItem(key)`. -/
def removeItem : Storage → String → Storage
  | [], _ => []
  | (k, v) :: rest, key => if k = key then removeItem rest key else (k, v) :: removeItem rest key

/-- `localStorage.setItem(key, value)`: the entry replaces any earlier one for `key`. -/
def setItem (ls : Storage) (key value : String) : Storage :=
  (key, value) :: removeItem ls key

/-! ## JSON values -/

/-- A value returned by `JSON.parse`. A number keeps its decimal literal:
sign, digits without the decimal point, and power of ten. -/
inductive JsonValue where
  | null
  | bool (b : Bool)
  | num (neg : Bool) (mant : Nat) (exp : Int)
  | str (s : String)
  | arr (xs : List JsonValue)
  | obj (kvs : List (String × JsonValue))

/-- Whether the decimal `mant * 10 ^ exp` converts to the Number `0` (or `-0`):
its magnitude is at most `2 ^ (-1075)`, half the least positive double. -/
def roundsToZero (mant : Nat) (exp : Int) : Bool :=
  decide (mant = 0) || (decide (exp < 0) && decide (mant * 2 ^ 1075 ≤ 10 ^ exp.natAbs))

/-- JavaScript truthiness (`ToBoolean`) of a parsed value. -/
def JsonValue.truthy : JsonValue → Bool
  | .null => false
  | .bool b => b
  | .num _ mant exp => !roundsToZero mant exp
  | .str s => decide (s ≠ "")
  | .arr _ => true
  | .obj _ => true

/-- The value of the last member named `key` (the one `JSON.parse` keeps when a name repeats). -/
def lookupLast (key : String) : List (String × JsonValue) → Option JsonValue
  | [] => none
  | (k, v) :: rest =>
    match lookupLast key rest with
    | some w => some w
    | none => if k = key then some v else none

/-- Property read `v.key` on a parsed value, `none` for `undefined`. Only objects
carry members; the property names read by the script (`enabled`, `savedAt`, `event`,
`dates`) are not defined on primitives, arrays or `Object.prototype`. -/
def JsonValue.getProp : JsonValue → String → Option JsonValue
  | .obj kvs, key => lookupLast key kvs
  | _, _ => none

/-- Truthiness of `existing?.enabled`. -/
def enabledTruthy (existing : JsonValue) : Bool :=
  match existing.getProp "enabled" with
  | some v => v.truthy
  | none => false

/-! ## JSON.parse -/

/-- JSON white space: space, tab, line feed, carriage return. -/
def isWs (c : Char) : Bool :=
  decide (c = ' ') || decide (c = '\t') || decide (c = '\n') || decide (c = '\r')

/-- Drops leading white space. -/
def skipWs : List Char → List Char
  | [] => []
  | c :: cs => if isWs c then skipWs cs else c :: cs

/-- Decimal digit test. -/
def isDigit (c : Char) : Bool := decide (48 ≤ c.toNat) && decide (c.toNat ≤ 57)

/-- Value of a hexadecimal digit. -/
def hexVal (c : Char) : Option Nat :=
  if 48 ≤ c.toNat ∧ c.toNat ≤ 57 then some (c.toNat - 48)
  else if 97 ≤ c.toNat ∧ c.toNat ≤ 102 then some (c.toNat - 87)
  else if 65 ≤ c.toNat ∧ c.toNat ≤ 70 then some (c.toNat - 55)
  else none

/-- The code unit written `\uXXXX`. -/
def hex4 (a b c d : Char) : Option Nat :=
  match hexVal a, hexVal b, hexVal c, hexVal d with
  | some w, some x, some y, some z => some (((w * 16 + x) * 16 + y) * 16 + z)
  | _, _, _, _ => none

/-- The character of a `\uXXXX` escape. A surrogate code unit, which a Lean
character cannot hold, is read as U+FFFD. -/
def unitChar (n : Nat) : Char :=
  if 0xD800 ≤ n ∧ n ≤ 0xDFFF then Char.ofNat 0xFFFD else Char.ofNat n

/-- The character of a single-letter escape `\e`. -/
def escapeChar (e : Char) : Option Char :=
  if e = '"' then some '"'
  else if e = '\\' then some '\\'
  else if e = '/' then some '/'
  else if e = 'b' then some (Char.ofNat 8)
  else if e = 'f' then some (Char.ofNat 12)
  else if e = 'n' then some '\n'
  else if e = 'r' then some '\r'
  else if e = 't' then some '\t'
  else none

/-- The characters of a JSON string after its opening quote, up to the closing
quote: the decoded content and the input that follows the closing quote. -/
def parseStringBody : List Char → Option (List Char × List Char)
  | [] => none
  | c :: rest =>
    if c = '"' then some ([], rest)
    else if c = '\\' then
      match rest with
      | [] => none
      | e :: rest2 =>
        if e = 'u' then
          match rest2 with
          | h1 :: h2 :: h3 :: h4 :: rest3 =>
            match hex4 h1 h2 h3 h4 with
            | some n =>
              match parseStringBody rest3 with
              | some r => some (unitChar n :: r.1, r.2)
              | none => none
            | none => none
          | _ => none
        else
          match escapeChar e with
          | some x =>
            match parseStringBody rest2 with
            | some r => some (x :: r.1, r.2)
            | none => none
          | none => none
    else if c.toNat < 32 then none
    else
      match parseStringBody rest with
      | some r => some (c :: r.1, r.2)
      | none => none

/-- Splits off the leading run of decimal digits. -/
def takeDigits : List Char → List Char × List Char
  | [] => ([], [])
  | c :: cs =>
    if isDigit c then ((c :: (takeDigits cs).1), (takeDigits cs).2) else ([], c :: cs)

/-- The number written by a list of decimal digits. -/
def digitsVal (ds : List Char) : Nat :=
  ds.foldl (fun acc c => 10 * acc + (c.toNat - 48)) 0

/-- Integer part of a JSON number: `0`, or a digit run that does not start with `0`. -/
def parseIntPart : List Char → Option (List Char × List Char)
  | [] => none
  | c :: cs =>
    if c = '0' then some ([c], cs)
    else if isDigit c then some (takeDigits (c :: cs))
    else none

/-- Optional fraction `.digits`. -/
def parseFrac : List Char → Option (List Char × List Char)
  | [] => some ([], [])
  | c :: cs =>
    if c = '.' then
      (if (takeDigits cs).1 = [] then none else some (takeDigits cs))
    else some ([], c :: cs)

/-- Optional exponent `e`/`E`, sign, digits. -/
def parseExp : List Char → Option (Int × List Char)
  | [] => some (0, [])
  | c :: cs =>
    if c = 'e' ∨ c = 'E' then
      match cs with
      | [] => none
      | s :: ds =>
        if s = '-' then
          (if (takeDigits ds).1 = [] then none
           else some (-(digitsVal (takeDigits ds).1 : Int), (takeDigits ds).2))
        else if s = '+' then
          (if (takeDigits ds).1 = [] then none
           else some ((digitsVal (takeDigits ds).1 : Int), (takeDigits ds).2))
        else
          (if (takeDigits cs).1 = [] then none
           else some ((digitsVal (takeDigits cs).1 : Int), (takeDigits cs).2))
    else some (0, c :: cs)

/-- An unsigned JSON number. -/
def parseUnsigned (neg : Bool) (cs : List Char) : Option (JsonValue × List Char) :=
  match parseIntPart cs with
  | none => none
  | some ip =>
    match parseFrac ip.2 with
    | none => none
    | some fp =>
      match parseExp fp.2 with
      | none => none
      | some ex =>
        some (JsonValue.num neg (digitsVal (ip.1 ++ fp.1)) (ex.1 - (fp.1.length : Int)), ex.2)

/-- A JSON number with its optional minus sign. -/
def parseNumber : List Char → Option (JsonValue × List Char)
  | [] => none
  | c :: cs => if c = '-' then parseUnsigned true cs else parseUnsigned false (c :: cs)

/-- Consumes the literal `lit` at the head of the input. -/
def expect : List Char → List Char → Option (List Char)
  | [], cs => some cs
  | _ :: _, [] => none
  | l :: ls, c :: cs => if l = c then expect ls cs else none

/-- A member name with its colon: `"name" ws : ws`. -/
def parseKey (cs : List Char) : Option (String × List Char) :=
  match cs with
  | [] => none
  | c :: rest =>
    if c = '"' then
      match parseStringBody rest with
      | none => none
      | some r =>
        match skipWs r.2 with
        | [] => none
        | d :: rest2 => if d = ':' then some (String.mk r.1, skipWs rest2) else none
    else none

/-- What the parser is reading: a value, the rest of an array after an element,
or the rest of an object after a member. -/
inductive Mode where
  | value
  | arrTail (acc : List JsonValue)
  | objTail (acc : List (String × JsonValue))

/-- Recursive descent over the JSON grammar. Every recursive call is on a strictly
shorter input, so `fuel` above the input length is never exhausted. -/
def parseFrom : Nat → Mode → List Char → Option (JsonValue × List Char)
  | 0, _, _ => none
  | fuel + 1, .value, cs =>
    match cs with
    | [] => none
    | c :: rest =>
      if c = '"' then
        match parseStringBody rest with
        | some r => some (JsonValue.str (String.mk r.1), r.2)
        | none => none
      else if c = '[' then
        match skipWs rest with
        | [] => none
        | d :: rest2 =>
          if d = ']' then some (JsonValue.arr [], rest2)
          else
            match parseFrom fuel .value (d :: rest2) with
            | some r => parseFrom fuel (.arrTail [r.1]) r.2
            | none => none
      else if c = '\x7b' then
        match skipWs rest with
        | [] => none
        | d :: rest2 =>
          if d = '\x7d' then some (JsonValue.obj [], rest2)
          else
            match parseKey (d :: rest2) with
            | none => none
            | some k =>
              match parseFrom fuel .value k.2 with
              | some r => parseFrom fuel (.objTail [(k.1, r.1)]) r.2
              | none => none
      else if c = 't' then
        match expect ['r', 'u', 'e'] rest with
        | some r => some (JsonValue.bool true, r)
        | none => none
      else if c = 'f' then
        match expect ['a', 'l', 's', 'e'] rest with
        | some r => some (JsonValue.bool false, r)
        | none => none
      else if c = 'n' then
        match expect ['u', 'l', 'l'] rest with
        | some r => some (JsonValue.null, r)
        | none => none
      else parseNumber (c :: rest)
  | fuel + 1, .arrTail acc, cs =>
    match skipWs cs with
    | [] => none
    | c :: rest =>
      if c = ']' then some (JsonValue.arr acc, rest)
      else if c = ',' then
        match parseFrom fuel .value (skipWs rest) with
        | some r => parseFrom fuel (.arrTail (acc ++ [r.1])) r.2
        | none => none
      else none
  | fuel + 1, .objTail acc, cs =>
    match skipWs cs with
    | [] => none
    | c :: rest =>
      if c = '\x7d' then some (JsonValue.obj acc, rest)
      else if c = ',' then
        match parseKey (skipWs rest) with
        | none => none
        | some k =>
          match parseFrom fuel .value k.2 with
          | some r => parseFrom fuel (.objTail (acc ++ [(k.1, r.1)])) r.2
          | none => none
      else none

/-- `JSON.parse(text)`: the value of a JSON text (`ws value ws`), `none` where
`JSON.parse` throws a `SyntaxError`. -/
def JSON.parse (text : String) : Option JsonValue :=
  match parseFrom ((skipWs text.data).length + 1) .value (skipWs text.data) with
  | some r => if skipWs r.2 = [] then some r.1 else none
  | none => none

/-- A character that a JSON string holds as itself: not the quote, not the
backslash, not a control character. -/
def plainChar (c : Char) : Prop := c ≠ '"' ∧ c ≠ '\\' ∧ 32 ≤ c.toNat

instance (c : Char) : Decidable (plainChar c) :=
  inferInstanceAs (Decidable (c ≠ '"' ∧ c ≠ '\\' ∧ 32 ≤ c.toNat))

/-- A run of plain characters. -/
def plainChars (cs : List Char) : Prop := ∀ c ∈ cs, plainChar c

instance (cs : List Char) : Decidable (plainChars cs) :=
  inferInstanceAs (Decidable (∀ c ∈ cs, plainChar c))

/-! ## JSON.stringify of the reminder payload -/

/-- The object literal built by `saveReminder`. -/
structure ReminderPayload where
  enabled : Bool
  savedAt : String
  event : String
  dates : String

/-- Lower-case hexadecimal digit. -/
def hexDigit (n : Nat) : Char :=
  if n < 10 then Char.ofNat (48 + n) else Char.ofNat (87 + n)

/-- `QuoteJSONString` on one character: the quote, the backslash and the control
characters are escaped, every other character stands for itself. -/
def quoteChar (c : Char) : List Char :=
  if c = '"' then ['\\', '"']
  else if c = '\\' then ['\\', '\\']
  else if c = Char.ofNat 8 then ['\\', 'b']
  else if c = Char.ofNat 12 then ['\\', 'f']
  else if c = '\n' then ['\\', 'n']
  else if c = '\r' then ['\\', 'r']
  else if c = '\t' then ['\\', 't']
  else if c.toNat < 32 then ['\\', 'u', '0', '0', hexDigit (c.toNat / 16), hexDigit (c.toNat % 16)]
  else [c]

/-- The quoted characters followed by the closing quote. -/
def quoteChars : List Char → List Char
  | [] => ['"']
  | c :: cs => quoteChar c ++ quoteChars cs

/-- `QuoteJSONString(s)`. -/
def quoteJSONString (s : String) : List Char := '"' :: quoteChars s.data

/-- `JSON.stringify(payload)` for the payload object of `saveReminder`: its four
members in insertion order, without white space. -/
def JSON.stringify (p : ReminderPayload) : String :=
  String.mk ("\x7b\"enabled\":".data ++ (if p.enabled then "true" else "false").data
    ++ ",\"savedAt\":".data ++ quoteJSONString p.savedAt
    ++ ",\"event\":".data ++ quoteJSONString p.event
    ++ ",\"dates\":".data ++ quoteJSONString p.dates ++ ['\x7d'])

/-- The value `JSON.parse` builds from a serialised payload. -/
def ReminderPayload.toJson (p : ReminderPayload) : JsonValue :=
  .obj [("enabled", .bool p.enabled), ("savedAt", .str p.savedAt),
        ("event", .str p.event), ("dates", .str p.dates)]

/-! ## Date: time values, `toISOString`, `Date.parse` -/

/-- A time value a `Date` can hold: at most 8.64e15 ms from the epoch. -/
def validTime (t : Int) : Prop := -8640000000000000 ≤ t ∧ t ≤ 8640000000000000

instance (t : Int) : Decidable (validTime t) :=
  inferInstanceAs (Decidable (-8640000000000000 ≤ t ∧ t ≤ 8640000000000000))

/-- Year of a 400-year era and day of that year, from the day of the era;
years start on 1 March, day 0 is 1 March of a year divisible by 400. -/
def yearOfEra (doe : Int) : Int × Int :=
  let n100 := min (doe / 36524) 3
  let d2 := doe - n100 * 36524
  let n4 := d2 / 1461
  let d3 := d2 % 1461
  let n1 := min (d3 / 365) 3
  (n100 * 100 + n4 * 4 + n1, d3 - n1 * 365)

/-- Month (1 to 12) and day of the month from the day of a year that starts on 1 March. -/
def monthDay (doy : Int) : Int × Int :=
  let mp := (5 * doy + 2) / 153
  (if mp < 10 then mp + 3 else mp - 9, doy - (153 * mp + 2) / 5 + 1)

/-- Gregorian year, month and day of a day number (days since 1970-01-01). -/
def civilFromDays (day : Int) : Int × Int × Int :=
  let z := day + 719468
  let era := z / 146097
  let yd := yearOfEra (z % 146097)
  let md := monthDay yd.2
  let y := era * 400 + yd.1
  (if md.1 ≤ 2 then y + 1 else y, md.1, md.2)

/-- Day number of a Gregorian date (`MakeDay`). -/
def daysFromCivil (year month day : Int) : Int :=
  let y := if month ≤ 2 then year - 1 else year
  let era := y / 400
  let yoe := y % 400
  let mp := if month > 2 then month - 3 else month + 9
  let doy := (153 * mp + 2) / 5 + day - 1
  let doe := yoe * 365 + yoe / 4 - yoe / 100 + doy
  era * 146097 + doe - 719468

/-- Gregorian leap year. -/
def isLeap (y : Int) : Prop := y % 4 = 0 ∧ (y % 100 ≠ 0 ∨ y % 400 = 0)

instance (y : Int) : Decidable (isLeap y) :=
  inferInstanceAs (Decidable (y % 4 = 0 ∧ (y % 100 ≠ 0 ∨ y % 400 = 0)))

/-- Number of days of a month. -/
def daysInMonth (y m : Int) : Int :=
  if m = 2 then (if isLeap y then 29 else 28)
  else if m = 4 ∨ m = 6 ∨ m = 9 ∨ m = 11 then 30 else 31

/-- The decimal digit character of `d mod 10`. -/
def digitChar (d : Nat) : Char := Char.ofNat (48 + d % 10)

/-- Two decimal digits, zero padded. -/
def pad2 (n : Nat) : List Char := [digitChar (n / 10), digitChar n]

/-- Three decimal digits, zero padded. -/
def pad3 (n : Nat) : List Char := [digitChar (n / 100), digitChar (n / 10), digitChar n]

/-- Four decimal digits, zero padded. -/
def pad4 (n : Nat) : List Char :=
  [digitChar (n / 1000), digitChar (n / 100), digitChar (n / 10), digitChar n]

/-- Six decimal digits, zero padded. -/
def pad6 (n : Nat) : List Char :=
  [digitChar (n / 100000), digitChar (n / 10000), digitChar (n / 1000),
   digitChar (n / 100), digitChar (n / 10), digitChar n]

/-- The year field: four digits for the years 0 to 9999, else a sign and six digits. -/
def yearChars (year : Int) : List Char :=
  if 0 ≤ year ∧ year ≤ 9999 then pad4 year.toNat
  else (if year < 0 then '-' else '+') :: pad6 year.natAbs

/-- The fields after the year: `-MM-DDTHH:mm:ss.sssZ`, from the month, the day and
the milliseconds since midnight. -/
def isoTail (month day ms : Nat) : List Char :=
  '-' :: pad2 month ++ '-' :: pad2 day
    ++ 'T' :: pad2 (ms / 3600000) ++ ':' :: pad2 (ms / 60000 % 60)
    ++ ':' :: pad2 (ms / 1000 % 60) ++ '.' :: pad3 (ms % 1000) ++ ['Z']

/-- `new Date(t).toISOString()`: `YYYY-MM-DDTHH:mm:ss.sssZ` in UTC. -/
def toISOString (t : Int) : String :=
  String.mk (yearChars (civilFromDays (t / 86400000)).1
    ++ isoTail (civilFromDays (t / 86400000)).2.1.toNat (civilFromDays (t / 86400000)).2.2.toNat
        (t % 86400000).toNat)

/-- Value of a decimal digit character. -/
def digitOf (c : Char) : Option Nat := if isDigit c then some (c.toNat - 48) else none

/-- Value of two digit characters. -/
def num2 (a b : Char) : Option Nat :=
  match digitOf a, digitOf b with
  | some x, some y => some (10 * x + y)
  | _, _ => none

/-- Value of three digit characters. -/
def num3 (a b c : Char) : Option Nat :=
  match digitOf a, num2 b c with
  | some x, some y => some (100 * x + y)
  | _, _ => none

/-- Value of four digit characters. -/
def num4 (a b c d : Char) : Option Nat :=
  match num2 a b, num2 c d with
  | some x, some y => some (100 * x + y)
  | _, _ => none

/-- Value of six digit characters. -/
def num6 (a b c d e f : Char) : Option Nat :=
  match num2 a b, num4 c d e f with
  | some x, some y => some (10000 * x + y)
  | _, _ => none

/-- The time value of the fields of a date-time (`MakeDate`, `MakeTime`, `TimeClip`);
`none` when a field is out of range or the result is not a valid time value. -/
def makeTime (year : Int) (mo d h mi s ms : Nat) : Option Int :=
  if 1 ≤ mo ∧ mo ≤ 12 ∧ 1 ≤ d ∧ (d : Int) ≤ daysInMonth year mo ∧ h ≤ 23 ∧ mi ≤ 59 ∧ s ≤ 59 then
    (if validTime (daysFromCivil year mo d * 86400000 + h * 3600000 + mi * 60000 + s * 1000 + ms)
     then some (daysFromCivil year mo d * 86400000 + h * 3600000 + mi * 60000 + s * 1000 + ms)
     else none)
  else none

/-- The part `-MM-DDTHH:mm:ss.sssZ` of a date-time string. -/
def parseDateTail (year : Int) : List Char → Option Int
  | [c1, m1, m2, c2, d1, d2, c3, h1, h2, c4, n1, n2, c5, s1, s2, c6, f1, f2, f3, c7] =>
    if c1 = '-' ∧ c2 = '-' ∧ c3 = 'T' ∧ c4 = ':' ∧ c5 = ':' ∧ c6 = '.' ∧ c7 = 'Z' then
      match num2 m1 m2, num2 d1 d2, num2 h1 h2, num2 n1 n2, num2 s1 s2, num3 f1 f2 f3 with
      | some mo, some d, some h, some mi, some s, some ms => makeTime year mo d h mi s ms
      | _, _, _, _, _, _ => none
    else none
  | _ => none

/-- `Date.parse(s)` on the UTC date-time format written by `toISOString`
(`YYYY-MM-DDTHH:mm:ss.sssZ`, or `±YYYYYY-…` for an expanded year): the time value.
Other inputs, which a browser may or may not accept, give `none`. -/
def Date.parse (s : String) : Option Int :=
  match s.data with
  | y1 :: y2 :: y3 :: y4 :: rest =>
    if y1 = '+' ∨ y1 = '-' then
      match rest with
      | y5 :: y6 :: y7 :: rest2 =>
        match num6 y2 y3 y4 y5 y6 y7 with
        | some y =>
          if y1 = '-' then (if y = 0 then none else parseDateTail (-(y : Int)) rest2)
          else parseDateTail (y : Int) rest2
        | none => none
      | _ => none
    else
      match num4 y1 y2 y3 y4 with
      | some y => parseDateTail (y : Int) rest
      | none => none
  | _ => none

/-! ## Reminder logic (`script.js`, lines 131–157) -/

/-- The storage key of the reminder. -/
def REMINDER_KEY : String := "vividSydney2026_reminder"

/-- The payload object of `saveReminder` when the clock reads `now`. -/
def payload (now : Int) : ReminderPayload :=
  { enabled := true
    savedAt := toISOString now
    event := "Vivid Sydney 2026"
    dates := "22 May – 13 June 2026" }

/-- `saveReminder()`, with the reading `now` of the clock taken by `new Date()`. -/
def saveReminder (now : Int) (ls : Storage) : Storage :=
  setItem ls REMINDER_KEY (JSON.stringify (payload now))

/-- `clearReminder()`. -/
def clearReminder (ls : Storage) : Storage :=
  removeItem ls REMINDER_KEY

/-- `getReminder()`: the returned value (`JsonValue.null` for JavaScript `null`) and
the storage afterwards. `!raw` holds for a missing key and for the empty string. -/
def getReminder (ls : Storage) : JsonValue × Storage :=
  match getItem ls REMINDER_KEY with
  | none => (.null, ls)
  | some raw =>
    if raw = "" then (.null, ls)
    else
      match JSON.parse raw with
      | some v => (v, ls)
      | none => (.null, clearReminder ls)

/-- The `savedAt` string of the record that `getReminder()` returns, if there is one. -/
def savedAtOf (ls : Storage) : Option String :=
  match (getReminder ls).1.getProp "savedAt" with
  | some (.str s) => some s
  | _ => none

/-- The record invariant of the storage: the key is absent, or it holds valid JSON
of an object whose `enabled` is `true` and whose `event` and `dates` are the two
fixed strings. -/
def storageOk (ls : Storage) : Prop :=
  getItem ls REMINDER_KEY = none ∨
  ∃ raw v, getItem ls REMINDER_KEY = some raw ∧ JSON.parse raw = some v ∧
    v.getProp "enabled" = some (.bool true) ∧
    v.getProp "event" = some (.str "Vivid Sydney 2026") ∧
    v.getProp "dates" = some (.str "22 May – 13 June 2026")

/-! ## The page: button, toasts, timers -/

/-- A JavaScript Number: a finite value, `NaN`, `Infinity` or `-Infinity`. -/
inductive JsNumber where
  | finite (q : ℚ)
  | nan
  | posInf
  | negInf
  deriving DecidableEq

/-- A JavaScript value as it may be passed for `options.duration`. -/
inductive JsVal where
  | undefined
  | null
  | boolean (b : Bool)
  | number (n : JsNumber)
  | string (s : String)
  | object
  deriving DecidableEq

/-- The function values passed as `options.onAction`: the script has one, the
arrow function of `handleReminderClick` (lines 180–184). -/
inductive Callback where
  | removeReminder
  deriving DecidableEq

/-- The `options` argument of `toast`. `actionText` is `undefined` (`none`) or a
string; `onAction` is a function exactly when it is `some`. -/
structure ToastOptions where
  duration : JsVal
  actionText : Option String
  onAction : Option Callback
  deriving DecidableEq

/-- The tracked content of the element `#reminderBtn`. -/
structure Button where
  textContent : String
  ariaPressed : Option String
  dataState : Option String
  deriving DecidableEq

/-- A toast element `el` created by `toast`. -/
structure ToastEl where
  message : String
  action : Option (String × Callback)
  opacity : String
  transform : String
  toastTimer : Nat
  deriving DecidableEq

/-- The function passed to `window.setTimeout`: `() => removeToast(el)` of `toast`
(line 111) or the detachment of `removeToast` (lines 126–128). -/
inductive TimerCallback where
  | autoRemove (el : Nat)
  | detach (el : Nat)
  deriving DecidableEq

/-- An active timer: its handle, the delay passed to `setTimeout`, its callback. -/
structure Timer where
  id : Nat
  delay : ℚ
  callback : TimerCallback
  deriving DecidableEq

/-- An entry of the execution trace, a record of what ran; nothing reads it.
`actionCallback` is written by the click listener of an action button as it calls
`options.onAction()`, `callbackRan` by the body of that function each time it
runs, `removeToast` by `removeToast` as it applies the removal effect, and the
last two by the timer callbacks. -/
inductive Effect where
  | actionCallback (el : Nat) (cb : Callback)
  | callbackRan (cb : Callback)
  | removeToast (el : Nat)
  | autoRemovalFired (el : Nat)
  | detachFired (el : Nat)
  deriving DecidableEq

/-- The state of the page.
`container` lists the children of `#toastContainer` when that element exists;
toast `k` is `els[k]`; `nextTimer` is the next timer handle; `frames` are the
toasts whose fade-in waits for the next animation frame; `ready` records that the
`DOMContentLoaded` listener has run. -/
structure State where
  storage : Storage
  reminderBtn : Option Button
  ready : Bool
  container : Option (List Nat)
  els : List ToastEl
  timers : List Timer
  nextTimer : Nat
  frames : List Nat
  trace : List Effect
  deriving DecidableEq

/-- `createToastContainer()`: the container is created once and reused. -/
def createToastContainer (s : State) : State :=
  match s.container with
  | some _ => s
  | none => { s with container := some [] }

/-- The action button of a toast: rendered when `options.actionText` is truthy and
`options.onAction` is a function (line 64). -/
def toastAction (options : ToastOptions) : Option (String × Callback) :=
  match options.actionText, options.onAction with
  | some text, some cb => if text ≠ "" then some (text, cb) else none
  | _, _ => none

/-- `Number.isFinite(options.duration) ? options.duration : 3200` (line 110). -/
def toastDuration (options : ToastOptions) : ℚ :=
  match options.duration with
  | .number (.finite q) => q
  | _ => 3200

/-- `toast(message, options)`. The new element is `els[s.els.length]`. -/
def toast (message : String) (options : ToastOptions) (s : State) : State :=
  let s1 := createToastContainer s
  { s1 with
    els := s1.els ++ [{ message := message
                        action := toastAction options
                        opacity := "0"
                        transform := "translateY(8px)"
                        toastTimer := s1.nextTimer }]
    container := s1.container.map (fun children => children ++ [s1.els.length])
    frames := s1.frames ++ [s1.els.length]
    timers := s1.timers ++ [{ id := s1.nextTimer
                              delay := toastDuration options
                              callback := .autoRemove s1.els.length }]
    nextTimer := s1.nextTimer + 1 }

/-- `window.clearTimeout(id)`. -/
def clearTimeout (id : Nat) (timers : List Timer) : List Timer :=
  timers.filter (fun tm => decide (tm.id ≠ id))

/-- `removeToast(el)`: cancels the timer `el._toastTimer` when that handle is
truthy, applies the fade-out and schedules the detachment after 200 ms. -/
def removeToast (el : Nat) (s : State) : State :=
  match s.els[el]? with
  | none => s
  | some e =>
    { s with
      timers := (if e.toastTimer ≠ 0 then clearTimeout e.toastTimer s.timers else s.timers)
        ++ [{ id := s.nextTimer, delay := 200, callback := .detach el }]
      nextTimer := s.nextTimer + 1
      els := s.els.set el { e with opacity := "0", transform := "translateY(8px)" }
      trace := s.trace ++ [.removeToast el] }

/-- The detachment callback: `if (el.parentNode) el.parentNode.removeChild(el)`. -/
def detach (el : Nat) (s : State) : State :=
  { s with container := s.container.map (fun children => children.filter (fun c => decide (c ≠ el))) }

/-- `updateReminderBtnState()`. -/
def updateReminderBtnState (s : State) : State :=
  match s.reminderBtn with
  | none => s
  | some _ =>
    if enabledTruthy (getReminder s.storage).1 then
      { s with
        storage := (getReminder s.storage).2
        reminderBtn := some { textContent := "Reminder saved ✓"
                              ariaPressed := some "true"
                              dataState := some "saved" } }
    else
      { s with
        storage := (getReminder s.storage).2
        reminderBtn := some { textContent := "Remind me"
                              ariaPressed := some "false"
                              dataState := some "idle" } }

/-- The body of an `onAction` function; each run is recorded in the trace. -/
def runCallback (cb : Callback) (s : State) : State :=
  match cb with
  | .removeReminder =>
    toast "Reminder removed."
      { duration := .number (.finite 2200), actionText := none, onAction := none }
      (updateReminderBtnState
        { s with
          storage := clearReminder s.storage
          trace := s.trace ++ [.callbackRan .removeReminder] })

/-- `handleReminderClick()`, with the reading `now` of the clock. -/
def handleReminderClick (now : Int) (s : State) : State :=
  if enabledTruthy (getReminder s.storage).1 then
    toast "Reminder is already saved."
      { duration := .undefined, actionText := some "Remove", onAction := some .removeReminder }
      { s with storage := (getReminder s.storage).2 }
  else
    toast "Done! We saved a reminder on this device."
      { duration := .number (.finite 3200), actionText := none, onAction := none }
      (updateReminderBtnState
        { s with storage := saveReminder now (getReminder s.storage).2 })

/-- The `DOMContentLoaded` listener (lines 195–207). -/
def onDomContentLoaded (s : State) : State :=
  let s1 := { updateReminderBtnState s with ready := true }
  if enabledTruthy (getReminder s1.storage).1 then
    toast "Welcome back! Your reminder is still saved ✓"
      { duration := .number (.finite 2400), actionText := none, onAction := none }
      { s1 with storage := (getReminder s1.storage).2 }
  else { s1 with storage := (getReminder s1.storage).2 }

/-- Whether toast `el` is a child of the container, so that it can be clicked. -/
def attached (el : Nat) (s : State) : Bool :=
  match s.container with
  | some children => decide (el ∈ children)
  | none => false

/-- The click listener of the action button followed, as the click bubbles, by the
click listener of the toast itself. -/
def actionClick (el : Nat) (cb : Callback) (s : State) : State :=
  removeToast el
    (removeToast el
      (runCallback cb { s with trace := s.trace ++ [.actionCallback el cb] }))

/-- A timer expires: it leaves the list of active timers and its callback runs. -/
def fireTimer (tm : Timer) (s : State) : State :=
  match tm.callback with
  | .autoRemove el =>
    removeToast el
      { s with timers := clearTimeout tm.id s.timers, trace := s.trace ++ [.autoRemovalFired el] }
  | .detach el =>
    detach el
      { s with timers := clearTimeout tm.id s.timers, trace := s.trace ++ [.detachFired el] }

/-- The fade-in of the `requestAnimationFrame` callback of `toast`. -/
def fadeIn (els : List ToastEl) (el : Nat) : List ToastEl :=
  match els[el]? with
  | some e => els.set el { e with opacity := "1", transform := "translateY(0)" }
  | none => els

/-- What can happen on the page. -/
inductive Event where
  | domContentLoaded
  | clickReminderBtn (now : Int)
  | clickToast (el : Nat)
  | clickAction (el : Nat)
  | timer (id : Nat)
  | animationFrame
  deriving DecidableEq

/-- One event. An event that cannot occur in `s` (a click on a button without
listener or on a toast that is not in the document, a timer that is not active, a
second `DOMContentLoaded`) leaves `s` unchanged. -/
def step (s : State) : Event → State
  | .domContentLoaded => if s.ready then s else onDomContentLoaded s
  | .clickReminderBtn now =>
    if s.ready ∧ s.reminderBtn.isSome then handleReminderClick now s else s
  | .clickToast el => if attached el s then removeToast el s else s
  | .clickAction el =>
    if attached el s then
      match s.els[el]? with
      | some e =>
        match e.action with
        | some a => actionClick el a.2 s
        | none => s
      | none => s
    else s
  | .timer id =>
    match s.timers.find? (fun tm => decide (tm.id = id)) with
    | some tm => fireTimer tm s
    | none => s
  | .animationFrame => { s with els := s.frames.foldl fadeIn s.els, frames := [] }

/-- A sequence of events. -/
def run (s : State) (events : List Event) : State := events.foldl step s

/-- The operations of the script: its functions called directly, and page events. -/
inductive Op where
  | saveReminder (now : Int)
  | clearReminder
  | getReminder
  | updateReminderBtnState
  | handleReminderClick (now : Int)
  | removeAction
  | event (e : Event)

/-- One operation. -/
def applyOp (s : State) : Op → State
  | .saveReminder now => { s with storage := saveReminder now s.storage }
  | .clearReminder => { s with storage := clearReminder s.storage }
  | .getReminder => { s with storage := (getReminder s.storage).2 }
  | .updateReminderBtnState => updateReminderBtnState s
  | .handleReminderClick now => handleReminderClick now s
  | .removeAction => runCallback .removeReminder s
  | .event e => step s e

/-- A sequence of operations. -/
def runOps (s : State) (ops : List Op) : State := ops.foldl applyOp s

/-- A page on which the script has not run yet: no toast, no timer of the script. -/
def initial (s : State) : Prop :=
  s.ready = false ∧ s.els = [] ∧ s.timers = [] ∧ s.frames = [] ∧ s.trace = [] ∧
  (s.container = none ∨ s.container = some []) ∧ 0 < s.nextTimer

/-- The timer handle kept on toast `el` (`el._toastTimer`), if the toast exists. -/
def timerOf (els : List ToastEl) (el : Nat) : Option Nat :=
  (els[el]?).map (fun e => e.toastTimer)

/-- Consistency of timers and toasts: timer handles are positive, distinct and
below `nextTimer`; the handle kept on a toast is one that was issued; an active
automatic-removal timer is the one whose handle its toast keeps; the children of
the container are toasts that exist. -/
structure WellFormed (s : State) : Prop where
  next_pos : 0 < s.nextTimer
  timer_lt : ∀ tm ∈ s.timers, tm.id < s.nextTimer
  timer_nodup : (s.timers.map (fun tm => tm.id)).Nodup
  el_timer : ∀ el id, timerOf s.els el = some id → 0 < id ∧ id < s.nextTimer
  auto_timer : ∀ tm ∈ s.timers, ∀ el, tm.callback = .autoRemove el →
    timerOf s.els el = some tm.id
  child_lt : ∀ children, s.container = some children → ∀ el ∈ children, el < s.els.length

/-- No automatic-removal timer of toast `el` is active. -/
def noAutoRemoval (el : Nat) (s : State) : Prop :=
  el < s.els.length ∧ ∀ tm ∈ s.timers, tm.callback ≠ .autoRemove el

/-- From `s` to `s'` no toast was dropped from the list of elements, no
automatic-removal timer of toast `el` was started, and no toast that existed in `s`
was put into the container. -/
def later (el : Nat) (s s' : State) : Prop :=
  s.els.length ≤ s'.els.length ∧
  (∀ tm ∈ s'.timers, tm ∈ s.timers ∨ tm.callback ≠ .autoRemove el) ∧
  (∀ k ∈ s'.container.getD [], k ∈ s.container.getD [] ∨ s.els.length ≤ k)

/-- Timer `tm` is active and no toast keeps its handle in `_toastTimer`, so that no
`clearTimeout` of the script cancels it. -/
def keptTimer (tm : Timer) (s : State) : Prop :=
  tm ∈ s.timers ∧ ∀ k id, timerOf s.els k = some id → id ≠ tm.id

/-- A page with the button `#reminderBtn` and the storage `ls`, before the script runs. -/
def freshPage (ls : Storage) : State :=
  { storage := ls
    reminderBtn := some { textContent := "Remind me", ariaPressed := none, dataState := none }
    ready := false
    container := none
    els := []
    timers := []
    nextTimer := 1
    frames := []
    trace := [] }

/-- The events that bring up the toast offering "Remove": the page loads, then the
reminder button is clicked while a reminder is stored. -/
def actionToastEvents : List Event := [.domContentLoaded, .clickReminderBtn 1700000000000]

/-- A page that shows the toast offering "Remove" as toast 1 (toast 0 is the
welcome toast), reached from a page whose storage holds a reminder. -/
def pageWithActionToast : State :=
  run (freshPage [(REMINDER_KEY, "\x7b\"enabled\":true\x7d")]) actionToastEvents

/-- The states the page reaches from an initial state. -/
def reachable (s : State) : Prop :=
  ∃ s0 events, initial s0 ∧ s = run s0 events

/-! # Theorems -/

/-! ## JSON.parse on the serialised payload -/

theorem parseStringBody_plain (cs rest : List Char) (h : plainChars cs) :
    parseStringBody (cs ++ '"' :: rest) = some (cs, rest) := by
  induction cs with
  | nil => rw [parseStringBody.eq_def]; simp
  | cons c cs ih =>
    have hc : plainChar c := h c (List.mem_cons_self _ _)
    have hcs : plainChars cs := fun d hd => h d (List.mem_cons_of_mem _ hd)
    obtain ⟨h1, h2, h3⟩ := hc
    have h4 : ¬ c.toNat < 32 := by omega
    rw [List.cons_append, parseStringBody.eq_def]
    simp [h1, h2, h4, ih hcs]

theorem quoteChar_plain (c : Char) (h : plainChar c) : quoteChar c = [c] := by
  obtain ⟨h1, h2, h3⟩ := h
  have h4 : ¬ c.toNat < 32 := by omega
  have n8 : c ≠ Char.ofNat 8 := by rintro rfl; revert h3; decide
  have n12 : c ≠ Char.ofNat 12 := by rintro rfl; revert h3; decide
  have nn : c ≠ '\n' := by rintro rfl; revert h3; decide
  have nr : c ≠ '\r' := by rintro rfl; revert h3; decide
  have nt : c ≠ '\t' := by rintro rfl; revert h3; decide
  simp [quoteChar, h1, h2, h4, n8, n12, nn, nr, nt]

theorem quoteChars_plain (cs : List Char) (h : plainChars cs) : quoteChars cs = cs ++ ['"'] := by
  induction cs with
  | nil => rfl
  | cons c cs ih =>
    have hc : plainChar c := h c (List.mem_cons_self _ _)
    have hcs : plainChars cs := fun d hd => h d (List.mem_cons_of_mem _ hd)
    simp [quoteChars, quoteChar_plain c hc, ih hcs]

theorem skipWs_plain (c : Char) (cs : List Char) (h : isWs c = false) : skipWs (c :: cs) = c :: cs := by
  simp [skipWs, h]

theorem parseKey_plain (k rest : List Char) (h : plainChars k) :
    parseKey ('"' :: (k ++ '"' :: ':' :: rest)) = some (String.mk k, skipWs rest) := by
  simp [parseKey, parseStringBody_plain k _ h, skipWs, isWs]

theorem parseFrom_str (fuel : Nat) (cs rest : List Char) (h : plainChars cs) :
    parseFrom (fuel + 1) .value ('"' :: (cs ++ '"' :: rest)) = some (.str (String.mk cs), rest) := by
  simp [parseFrom, parseStringBody_plain cs _ h]

theorem parseFrom_member (fuel : Nat) (acc : List (String × JsonValue)) (k v rest : List Char)
    (hk : plainChars k) (hv : plainChars v) :
    parseFrom (fuel + 2) (.objTail acc) (',' :: '"' :: (k ++ '"' :: ':' :: '"' :: (v ++ '"' :: rest)))
      = parseFrom (fuel + 1) (.objTail (acc ++ [(String.mk k, .str (String.mk v))])) rest := by
  rw [parseFrom]
  simp only [skipWs, isWs]
  simp [parseKey_plain k _ hk, skipWs, isWs, parseFrom_str fuel v rest hv]

theorem parseFrom_close (fuel : Nat) (acc : List (String × JsonValue)) :
    parseFrom (fuel + 1) (.objTail acc) ['\x7d'] = some (.obj acc, []) := by
  simp [parseFrom, skipWs, isWs]


theorem parseFrom_bool (fuel : Nat) (b : Bool) (rest : List Char) :
    parseFrom (fuel + 1) .value ((if b then "true" else "false").data ++ rest)
      = some (.bool b, rest) := by
  cases b
  · have : "false".data = ['f', 'a', 'l', 's', 'e'] := rfl
    simp [this, parseFrom, expect]
  · have : "true".data = ['t', 'r', 'u', 'e'] := rfl
    simp [this, parseFrom, expect]

theorem parseFrom_open (fuel : Nat) (k : List Char) (b : Bool) (rest : List Char)
    (hk : plainChars k) :
    parseFrom (fuel + 2) .value
        ('\x7b' :: '"' :: (k ++ '"' :: ':' :: ((if b then "true" else "false").data ++ rest)))
      = parseFrom (fuel + 1) (.objTail [(String.mk k, .bool b)]) rest := by
  have hs : skipWs ((if b then "true" else "false").data ++ rest)
      = (if b then "true" else "false").data ++ rest := by
    cases b
    · have : "false".data = ['f', 'a', 'l', 's', 'e'] := rfl
      simp [this, skipWs, isWs]
    · have : "true".data = ['t', 'r', 'u', 'e'] := rfl
      simp [this, skipWs, isWs]
  rw [parseFrom]
  simp only [skipWs, isWs]
  simp [parseKey_plain k _ hk, hs, parseFrom_bool]

theorem parseFrom_record (fuel : Nat) (b : Bool) (ke ks kv kd sa ev da : List Char)
    (k1 : plainChars ke) (k2 : plainChars ks) (k3 : plainChars kv) (k4 : plainChars kd)
    (h1 : plainChars sa) (h2 : plainChars ev) (h3 : plainChars da) :
    parseFrom (fuel + 5) .value
      (('\x7b' :: '"' :: (ke ++ ['"', ':'])) ++ (if b then "true" else "false").data
        ++ (',' :: '"' :: (ks ++ ['"', ':'])) ++ ('"' :: (sa ++ ['"']))
        ++ (',' :: '"' :: (kv ++ ['"', ':'])) ++ ('"' :: (ev ++ ['"']))
        ++ (',' :: '"' :: (kd ++ ['"', ':'])) ++ ('"' :: (da ++ ['"'])) ++ ['\x7d'])
      = some (.obj [(String.mk ke, .bool b), (String.mk ks, .str (String.mk sa)),
                    (String.mk kv, .str (String.mk ev)), (String.mk kd, .str (String.mk da))], []) := by
  generalize hb : (if b then "true" else "false").data = bs
  simp only [List.cons_append, List.append_assoc, List.nil_append]
  rw [← hb, parseFrom_open (fuel + 3) ke b _ k1, parseFrom_member (fuel + 2) _ ks sa _ k2 h1,
    parseFrom_member (fuel + 1) _ kv ev _ k3 h2, parseFrom_member fuel _ kd da _ k4 h3,
    parseFrom_close]
  rfl

theorem parseFrom_payload (fuel : Nat) (b : Bool) (sa ev da : List Char)
    (h1 : plainChars sa) (h2 : plainChars ev) (h3 : plainChars da) :
    parseFrom (fuel + 5) .value
      ("\x7b\"enabled\":".data ++ (if b then "true" else "false").data
        ++ ",\"savedAt\":".data ++ ('"' :: (sa ++ ['"']))
        ++ ",\"event\":".data ++ ('"' :: (ev ++ ['"']))
        ++ ",\"dates\":".data ++ ('"' :: (da ++ ['"'])) ++ ['\x7d'])
      = some (.obj [("enabled", .bool b), ("savedAt", .str (String.mk sa)),
                    ("event", .str (String.mk ev)), ("dates", .str (String.mk da))], []) :=
  parseFrom_record fuel b "enabled".data "savedAt".data "event".data "dates".data sa ev da
    (by decide) (by decide) (by decide) (by decide) h1 h2 h3

theorem stringify_data (p : ReminderPayload) (h1 : plainChars p.savedAt.data)
    (h2 : plainChars p.event.data) (h3 : plainChars p.dates.data) :
    (JSON.stringify p).data =
      "\x7b\"enabled\":".data ++ (if p.enabled then "true" else "false").data
        ++ ",\"savedAt\":".data ++ ('"' :: (p.savedAt.data ++ ['"']))
        ++ ",\"event\":".data ++ ('"' :: (p.event.data ++ ['"']))
        ++ ",\"dates\":".data ++ ('"' :: (p.dates.data ++ ['"'])) ++ ['\x7d'] := by
  simp only [JSON.stringify, quoteJSONString, quoteChars_plain _ h1, quoteChars_plain _ h2,
    quoteChars_plain _ h3]

/-- `JSON.parse` inverts `JSON.stringify` on a payload whose strings need no escape. -/
theorem parse_stringify (p : ReminderPayload) (h1 : plainChars p.savedAt.data)
    (h2 : plainChars p.event.data) (h3 : plainChars p.dates.data) :
    JSON.parse (JSON.stringify p) = some p.toJson := by
  have hd := stringify_data p h1 h2 h3
  have hpf := fun fuel => parseFrom_payload fuel p.enabled _ _ _ h1 h2 h3
  rw [← hd] at hpf
  have hsk : skipWs (JSON.stringify p).data = (JSON.stringify p).data := by
    rw [hd]
    have : "\x7b\"enabled\":".data = '\x7b' :: "\"enabled\":".data := rfl
    rw [this]
    simp [skipWs, isWs]
  have hlen : 5 ≤ (JSON.stringify p).data.length + 1 := by
    rw [hd]
    have : "\x7b\"enabled\":".data.length = 11 := rfl
    simp only [List.length_append, this]
    omega
  obtain ⟨k, hk⟩ : ∃ k, (JSON.stringify p).data.length + 1 = k + 5 :=
    ⟨(JSON.stringify p).data.length + 1 - 5, by omega⟩
  unfold JSON.parse
  rw [hsk, hk, hpf k]
  simp [skipWs, ReminderPayload.toJson]

/-! ## The fuel of the parser -/

theorem skipWs_length (cs : List Char) : (skipWs cs).length ≤ cs.length := by
  induction cs with
  | nil => simp [skipWs]
  | cons c cs ih =>
    simp only [skipWs]
    split_ifs
    · simp only [List.length_cons]; omega
    · exact le_refl _

theorem parseStringBody_length (n : Nat) : ∀ cs : List Char, cs.length ≤ n →
    ∀ r, parseStringBody cs = some r → r.2.length < cs.length := by
  induction n with
  | zero =>
    intro cs hn r h
    have : cs = [] := List.length_eq_zero.1 (by omega)
    subst this
    rw [parseStringBody.eq_def] at h
    simp at h
  | succ n ih =>
    intro cs hn r h
    rw [parseStringBody.eq_def] at h
    split at h
    · simp at h
    · next c rest =>
      simp only [List.length_cons] at hn ⊢
      split_ifs at h with h1 h2 h3
      · simp only [Option.some.injEq] at h; subst h; simp
      · split at h
        · simp at h
        · next e rest2 =>
          simp only [List.length_cons] at hn ⊢
          split_ifs at h with h4
          · split at h
            · next a b c2 d rest3 =>
              simp only [List.length_cons] at hn ⊢
              split at h
              · split at h
                · next r' hr' =>
                  simp only [Option.some.injEq] at h; subst h
                  have := ih rest3 (by omega) r' hr'
                  simp only; omega
                · simp at h
              · simp at h
            · simp at h
          · split at h
            · split at h
              · next r' hr' =>
                simp only [Option.some.injEq] at h; subst h
                have := ih rest2 (by omega) r' hr'
                simp only; omega
              · simp at h
            · simp at h
      · split at h
        · next r' hr' =>
          simp only [Option.some.injEq] at h; subst h
          have := ih rest (by omega) r' hr'
          simp only; omega
        · simp at h

theorem takeDigits_length (cs : List Char) : (takeDigits cs).2.length ≤ cs.length := by
  induction cs with
  | nil => simp [takeDigits]
  | cons c cs ih =>
    simp only [takeDigits]
    split_ifs
    · simp only [List.length_cons]; omega
    · exact le_refl _

theorem parseIntPart_length (cs : List Char) (r) (h : parseIntPart cs = some r) :
    r.2.length < cs.length := by
  cases cs with
  | nil => simp [parseIntPart] at h
  | cons c cs =>
    simp only [parseIntPart] at h
    split_ifs at h with h1 h2
    · simp only [Option.some.injEq] at h; subst h; simp
    · simp only [Option.some.injEq] at h; subst h
      simp only [takeDigits, h2, if_true, List.length_cons]
      have := takeDigits_length cs
      omega

theorem parseFrac_length (cs : List Char) (r) (h : parseFrac cs = some r) :
    r.2.length ≤ cs.length := by
  cases cs with
  | nil => simp [parseFrac] at h; subst h; simp
  | cons c cs =>
    simp only [parseFrac] at h
    split_ifs at h with h1 h2
    · simp only [Option.some.injEq] at h; subst h
      have := takeDigits_length cs
      simp only [List.length_cons]; omega
    · simp only [Option.some.injEq] at h; subst h; simp

theorem parseExp_length (cs : List Char) (r) (h : parseExp cs = some r) :
    r.2.length ≤ cs.length := by
  cases cs with
  | nil => simp [parseExp] at h; subst h; simp
  | cons c cs =>
    simp only [parseExp] at h
    by_cases h1 : c = 'e' ∨ c = 'E'
    · rw [if_pos h1] at h
      cases cs with
      | nil => simp at h
      | cons s ds =>
        have h3 := takeDigits_length ds
        have h4 := takeDigits_length (s :: ds)
        simp only [List.length_cons] at h4 ⊢
        simp only at h
        split_ifs at h <;> simp only [Option.some.injEq] at h <;> subst h <;> simp only <;> omega
    · rw [if_neg h1] at h
      obtain rfl := Option.some.inj h
      exact le_refl _

theorem parseUnsigned_length (neg : Bool) (cs : List Char) (r)
    (h : parseUnsigned neg cs = some r) : r.2.length < cs.length := by
  unfold parseUnsigned at h
  split at h
  · simp at h
  · next ip hip =>
    split at h
    · simp at h
    · next fp hfp =>
      split at h
      · simp at h
      · next ex hex =>
        simp only [Option.some.injEq] at h; subst h
        have h1 := parseIntPart_length cs ip hip
        have h2 := parseFrac_length _ fp hfp
        have h3 := parseExp_length _ ex hex
        simp only; omega

theorem parseNumber_length (cs : List Char) (r) (h : parseNumber cs = some r) :
    r.2.length < cs.length := by
  cases cs with
  | nil => simp [parseNumber] at h
  | cons c cs =>
    simp only [parseNumber] at h
    split_ifs at h
    · have := parseUnsigned_length true cs r h
      simp only [List.length_cons]; omega
    · exact parseUnsigned_length false (c :: cs) r h

theorem expect_length (l cs : List Char) (r) (h : expect l cs = some r) :
    r.length ≤ cs.length := by
  induction l generalizing cs with
  | nil => simp [expect] at h; subst h; exact le_refl _
  | cons a l ih =>
    cases cs with
    | nil => simp [expect] at h
    | cons c cs =>
      simp only [expect] at h
      split_ifs at h
      have := ih cs h
      simp only [List.length_cons]; omega

theorem parseKey_length (cs : List Char) (k) (h : parseKey cs = some k) :
    k.2.length < cs.length := by
  unfold parseKey at h
  split at h
  · simp at h
  · next c rest =>
    split_ifs at h
    split at h
    · simp at h
    · next r hr =>
      have h1 := parseStringBody_length rest.length rest (le_refl _) r hr
      have h2 := skipWs_length r.2
      split at h
      · simp at h
      · next d rest2 hd =>
        split_ifs at h
        simp only [Option.some.injEq] at h; subst h
        have h3 := skipWs_length rest2
        rw [hd] at h2
        simp only [List.length_cons] at h2 ⊢
        omega

/-- A successful parse consumes input. -/
theorem parseFrom_length (fuel : Nat) : ∀ (mode : Mode) (cs : List Char) r,
    parseFrom fuel mode cs = some r → r.2.length < cs.length := by
  induction fuel with
  | zero => intro mode cs r h; simp [parseFrom] at h
  | succ fuel ih =>
    intro mode cs r h
    cases mode with
    | value =>
      cases cs with
      | nil => simp [parseFrom] at h
      | cons c rest =>
        simp only [parseFrom] at h
        simp only [List.length_cons]
        by_cases h1 : c = '"'
        · rw [if_pos h1] at h
          cases hb : parseStringBody rest with
          | none => rw [hb] at h; simp at h
          | some b =>
            rw [hb] at h
            obtain rfl := Option.some.inj h
            have := parseStringBody_length rest.length rest (le_refl _) b hb
            simp only; omega
        rw [if_neg h1] at h
        by_cases h2 : c = '['
        · rw [if_pos h2] at h
          have hs := skipWs_length rest
          cases hsk : skipWs rest with
          | nil => rw [hsk] at h; simp at h
          | cons d rest2 =>
            rw [hsk] at h hs
            simp only [List.length_cons] at hs
            simp only at h
            by_cases h3 : d = ']'
            · rw [if_pos h3] at h
              obtain rfl := Option.some.inj h
              simp only; omega
            · rw [if_neg h3] at h
              cases hv : parseFrom fuel .value (d :: rest2) with
              | none => rw [hv] at h; simp at h
              | some v =>
                rw [hv] at h
                have e1 := ih _ _ _ hv
                have e2 := ih _ _ _ h
                simp only [List.length_cons] at e1
                omega
        rw [if_neg h2] at h
        by_cases h3 : c = '\x7b'
        · rw [if_pos h3] at h
          have hs := skipWs_length rest
          cases hsk : skipWs rest with
          | nil => rw [hsk] at h; simp at h
          | cons d rest2 =>
            rw [hsk] at h hs
            simp only [List.length_cons] at hs
            simp only at h
            by_cases h4 : d = '\x7d'
            · rw [if_pos h4] at h
              obtain rfl := Option.some.inj h
              simp only; omega
            · rw [if_neg h4] at h
              cases hk : parseKey (d :: rest2) with
              | none => rw [hk] at h; simp at h
              | some k =>
                rw [hk] at h
                simp only at h
                have e0 := parseKey_length _ k hk
                simp only [List.length_cons] at e0
                cases hv : parseFrom fuel .value k.2 with
                | none => rw [hv] at h; simp at h
                | some v =>
                  rw [hv] at h
                  have e1 := ih _ _ _ hv
                  have e2 := ih _ _ _ h
                  omega
        rw [if_neg h3] at h
        by_cases h4 : c = 't'
        · rw [if_pos h4] at h
          cases he : expect ['r', 'u', 'e'] rest with
          | none => rw [he] at h; simp at h
          | some x =>
            rw [he] at h
            obtain rfl := Option.some.inj h
            have := expect_length _ _ _ he
            simp only; omega
        rw [if_neg h4] at h
        by_cases h5 : c = 'f'
        · rw [if_pos h5] at h
          cases he : expect ['a', 'l', 's', 'e'] rest with
          | none => rw [he] at h; simp at h
          | some x =>
            rw [he] at h
            obtain rfl := Option.some.inj h
            have := expect_length _ _ _ he
            simp only; omega
        rw [if_neg h5] at h
        by_cases h6 : c = 'n'
        · rw [if_pos h6] at h
          cases he : expect ['u', 'l', 'l'] rest with
          | none => rw [he] at h; simp at h
          | some x =>
            rw [he] at h
            obtain rfl := Option.some.inj h
            have := expect_length _ _ _ he
            simp only; omega
        rw [if_neg h6] at h
        have := parseNumber_length _ _ h
        simpa using this
    | arrTail acc =>
      simp only [parseFrom] at h
      have hs := skipWs_length cs
      cases hsk : skipWs cs with
      | nil => rw [hsk] at h; simp at h
      | cons c rest =>
        rw [hsk] at h hs
        simp only [List.length_cons] at hs
        simp only at h
        by_cases h1 : c = ']'
        · rw [if_pos h1] at h
          obtain rfl := Option.some.inj h
          simp only; omega
        rw [if_neg h1] at h
        by_cases h2 : c = ','
        · rw [if_pos h2] at h
          have hs2 := skipWs_length rest
          cases hv : parseFrom fuel .value (skipWs rest) with
          | none => rw [hv] at h; simp at h
          | some v =>
            rw [hv] at h
            have e1 := ih _ _ _ hv
            have e2 := ih _ _ _ h
            omega
        · rw [if_neg h2] at h; simp at h
    | objTail acc =>
      simp only [parseFrom] at h
      have hs := skipWs_length cs
      cases hsk : skipWs cs with
      | nil => rw [hsk] at h; simp at h
      | cons c rest =>
        rw [hsk] at h hs
        simp only [List.length_cons] at hs
        simp only at h
        by_cases h1 : c = '\x7d'
        · rw [if_pos h1] at h
          obtain rfl := Option.some.inj h
          simp only; omega
        rw [if_neg h1] at h
        by_cases h2 : c = ','
        · rw [if_pos h2] at h
          have hs2 := skipWs_length rest
          cases hk : parseKey (skipWs rest) with
          | none => rw [hk] at h; simp at h
          | some k =>
            rw [hk] at h
            simp only at h
            have e0 := parseKey_length _ k hk
            cases hv : parseFrom fuel .value k.2 with
            | none => rw [hv] at h; simp at h
            | some v =>
              rw [hv] at h
              have e1 := ih _ _ _ hv
              have e2 := ih _ _ _ h
              omega
        · rw [if_neg h2] at h; simp at h

/-- Fuel above the input length is never exhausted: the result of the parser does
not depend on it. -/
theorem parseFrom_fuel (f1 : Nat) : ∀ (f2 : Nat) (mode : Mode) (cs : List Char),
    cs.length < f1 → cs.length < f2 → parseFrom f1 mode cs = parseFrom f2 mode cs := by
  induction f1 with
  | zero => intro f2 mode cs h1; omega
  | succ f1 ih =>
    intro f2 mode cs hl1 hl2
    cases f2 with
    | zero => omega
    | succ f2 =>
      cases mode with
      | value =>
        cases cs with
        | nil => simp [parseFrom]
        | cons c rest =>
          simp only [List.length_cons] at hl1 hl2
          simp only [parseFrom]
          have hs := skipWs_length rest
          by_cases h1 : c = '"'
          · rw [if_pos h1, if_pos h1]
          rw [if_neg h1, if_neg h1]
          by_cases h2 : c = '['
          · rw [if_pos h2, if_pos h2]
            cases hsk : skipWs rest with
            | nil => rfl
            | cons d rest2 =>
              rw [hsk] at hs
              simp only [List.length_cons] at hs
              simp only
              by_cases h3 : d = ']'
              · rw [if_pos h3, if_pos h3]
              rw [if_neg h3, if_neg h3]
              rw [ih f2 .value (d :: rest2) (by simp only [List.length_cons]; omega)
                (by simp only [List.length_cons]; omega)]
              cases hv : parseFrom f2 .value (d :: rest2) with
              | none => rfl
              | some v =>
                have e1 := parseFrom_length _ _ _ _ hv
                simp only [List.length_cons] at e1
                exact ih f2 _ v.2 (by omega) (by omega)
          rw [if_neg h2, if_neg h2]
          by_cases h3 : c = '\x7b'
          · rw [if_pos h3, if_pos h3]
            cases hsk : skipWs rest with
            | nil => rfl
            | cons d rest2 =>
              rw [hsk] at hs
              simp only [List.length_cons] at hs
              simp only
              by_cases h4 : d = '\x7d'
              · rw [if_pos h4, if_pos h4]
              rw [if_neg h4, if_neg h4]
              cases hk : parseKey (d :: rest2) with
              | none => rfl
              | some k =>
                have e0 := parseKey_length _ k hk
                simp only [List.length_cons] at e0
                simp only
                rw [ih f2 .value k.2 (by omega) (by omega)]
                cases hv : parseFrom f2 .value k.2 with
                | none => rfl
                | some v =>
                  have e1 := parseFrom_length _ _ _ _ hv
                  exact ih f2 _ v.2 (by omega) (by omega)
          rw [if_neg h3, if_neg h3]
      | arrTail acc =>
        simp only [parseFrom]
        have hs := skipWs_length cs
        cases hsk : skipWs cs with
        | nil => rfl
        | cons c rest =>
          rw [hsk] at hs
          simp only [List.length_cons] at hs
          simp only
          by_cases h1 : c = ']'
          · rw [if_pos h1, if_pos h1]
          rw [if_neg h1, if_neg h1]
          by_cases h2 : c = ','
          · rw [if_pos h2, if_pos h2]
            have hs2 := skipWs_length rest
            rw [ih f2 .value (skipWs rest) (by omega) (by omega)]
            cases hv : parseFrom f2 .value (skipWs rest) with
            | none => rfl
            | some v =>
              have e1 := parseFrom_length _ _ _ _ hv
              exact ih f2 _ v.2 (by omega) (by omega)
          · rw [if_neg h2, if_neg h2]
      | objTail acc =>
        simp only [parseFrom]
        have hs := skipWs_length cs
        cases hsk : skipWs cs with
        | nil => rfl
        | cons c rest =>
          rw [hsk] at hs
          simp only [List.length_cons] at hs
          simp only
          by_cases h1 : c = '\x7d'
          · rw [if_pos h1, if_pos h1]
          rw [if_neg h1, if_neg h1]
          by_cases h2 : c = ','
          · rw [if_pos h2, if_pos h2]
            have hs2 := skipWs_length rest
            cases hk : parseKey (skipWs rest) with
            | none => rfl
            | some k =>
              have e0 := parseKey_length _ k hk
              simp only
              rw [ih f2 .value k.2 (by omega) (by omega)]
              cases hv : parseFrom f2 .value k.2 with
              | none => rfl
              | some v =>
                have e1 := parseFrom_length _ _ _ _ hv
                exact ih f2 _ v.2 (by omega) (by omega)
          · rw [if_neg h2, if_neg h2]

/-- The result of `JSON.parse` is the one the parser gives with any larger fuel. -/
theorem JSON_parse_fuel (text : String) (fuel : Nat)
    (h : (skipWs text.data).length < fuel) :
    JSON.parse text =
      (parseFrom fuel .value (skipWs text.data)).bind
        (fun r => if skipWs r.2 = [] then some r.1 else none) := by
  unfold JSON.parse
  rw [parseFrom_fuel _ fuel .value _ (Nat.lt_succ_self _) h]
  cases parseFrom fuel .value (skipWs text.data) <;> rfl

/-! ### Decimal digits -/

theorem digit_table : ∀ k, k < 10 →
    plainChar (Char.ofNat (48 + k)) ∧ digitOf (Char.ofNat (48 + k)) = some k ∧
    Char.ofNat (48 + k) ≠ '+' ∧ Char.ofNat (48 + k) ≠ '-' := by
  decide

theorem digitChar_plain (d : Nat) : plainChar (digitChar d) :=
  (digit_table (d % 10) (Nat.mod_lt _ (by decide))).1

theorem digitOf_digitChar (d : Nat) : digitOf (digitChar d) = some (d % 10) :=
  (digit_table (d % 10) (Nat.mod_lt _ (by decide))).2.1

theorem digitChar_ne_sign (d : Nat) : digitChar d ≠ '+' ∧ digitChar d ≠ '-' :=
  (digit_table (d % 10) (Nat.mod_lt _ (by decide))).2.2

theorem num2_pad (n : Nat) (h : n < 100) : num2 (digitChar (n / 10)) (digitChar n) = some n := by
  simp only [num2, digitOf_digitChar]
  congr 1
  omega

theorem num3_pad (n : Nat) (h : n < 1000) :
    num3 (digitChar (n / 100)) (digitChar (n / 10)) (digitChar n) = some n := by
  simp only [num3, num2, digitOf_digitChar]
  congr 1
  omega

theorem num4_pad (n : Nat) (h : n < 10000) :
    num4 (digitChar (n / 1000)) (digitChar (n / 100)) (digitChar (n / 10)) (digitChar n)
      = some n := by
  simp only [num4, num2, digitOf_digitChar]
  congr 1
  omega

theorem num6_pad (n : Nat) (h : n < 1000000) :
    num6 (digitChar (n / 100000)) (digitChar (n / 10000)) (digitChar (n / 1000))
      (digitChar (n / 100)) (digitChar (n / 10)) (digitChar n) = some n := by
  simp only [num6, num4, num2, digitOf_digitChar]
  congr 1
  omega

/-! ### The calendar -/

theorem yearOfEra_spec (doe : Int) (h0 : 0 ≤ doe) (h1 : doe < 146097) :
    0 ≤ (yearOfEra doe).1 ∧ (yearOfEra doe).1 ≤ 399 ∧
    0 ≤ (yearOfEra doe).2 ∧ (yearOfEra doe).2 ≤ 365 ∧
    (yearOfEra doe).1 * 365 + (yearOfEra doe).1 / 4 - (yearOfEra doe).1 / 100
      + (yearOfEra doe).2 = doe ∧
    ((yearOfEra doe).2 = 365 →
      ((yearOfEra doe).1 + 1) % 4 = 0 ∧
      (((yearOfEra doe).1 + 1) % 100 ≠ 0 ∨ (yearOfEra doe).1 + 1 = 400)) := by
  simp only [yearOfEra]
  generalize hn100 : min (doe / 36524) 3 = n100
  have b100 : 0 ≤ n100 ∧ n100 ≤ 3 := by omega
  generalize hd2 : doe - n100 * 36524 = d2
  have bd2 : 0 ≤ d2 ∧ d2 ≤ 36524 ∧ (n100 < 3 → d2 < 36524) := by omega
  generalize hn4 : d2 / 1461 = n4
  generalize hd3 : d2 % 1461 = d3
  have b4 : 0 ≤ n4 ∧ n4 ≤ 24 ∧ 0 ≤ d3 ∧ d3 ≤ 1460 ∧ d2 = n4 * 1461 + d3 := by omega
  generalize hn1 : min (d3 / 365) 3 = n1
  have b1 : 0 ≤ n1 ∧ n1 ≤ 3 ∧ 0 ≤ d3 - n1 * 365 ∧ d3 - n1 * 365 ≤ 365 ∧
      (n1 < 3 → d3 - n1 * 365 < 365) := by omega
  have q4 : (n100 * 100 + n4 * 4 + n1) / 4 = n100 * 25 + n4 := by omega
  have q100 : (n100 * 100 + n4 * 4 + n1) / 100 = n100 := by omega
  have hdoe : doe = n100 * 36524 + n4 * 1461 + d3 := by omega
  refine ⟨by omega, by omega, by omega, by omega, ?_, ?_⟩
  · rw [q4, q100]; omega
  · intro h
    have e1 : n1 = 3 := by omega
    have e3 : d3 = 1460 := by omega
    subst e1 e3
    refine ⟨by omega, ?_⟩
    by_cases h24 : n4 = 24
    · right
      subst h24
      have : n100 = 3 := by omega
      omega
    · left; omega

theorem monthDay_spec (doy : Int) (h0 : 0 ≤ doy) (h1 : doy ≤ 365) :
    1 ≤ (monthDay doy).1 ∧ (monthDay doy).1 ≤ 12 ∧ 1 ≤ (monthDay doy).2 ∧
    (153 * (if (monthDay doy).1 > 2 then (monthDay doy).1 - 3 else (monthDay doy).1 + 9) + 2) / 5
      + (monthDay doy).2 - 1 = doy ∧
    ((monthDay doy).1 = 2 → (monthDay doy).2 ≤ 29 ∧ (doy < 365 → (monthDay doy).2 ≤ 28)) ∧
    ((monthDay doy).1 = 4 ∨ (monthDay doy).1 = 6 ∨ (monthDay doy).1 = 9 ∨ (monthDay doy).1 = 11 →
      (monthDay doy).2 ≤ 30) ∧
    (monthDay doy).2 ≤ 31 ∧ ((monthDay doy).1 ≤ 2 → 306 ≤ doy) ∧ (2 < (monthDay doy).1 → doy < 306) := by
  simp only [monthDay]
  generalize hmp : (5 * doy + 2) / 153 = mp
  have bmp : 0 ≤ mp ∧ mp ≤ 11 := by omega
  obtain ⟨b0, b11⟩ := bmp
  interval_cases mp <;> simp <;> omega

/-- Facts about `civilFromDays day`, in terms of the era and the year of the era. -/
theorem civilFromDays_spec (day : Int) :
    1 ≤ (civilFromDays day).2.1 ∧ (civilFromDays day).2.1 ≤ 12 ∧
    1 ≤ (civilFromDays day).2.2 ∧
    (civilFromDays day).2.2 ≤ daysInMonth (civilFromDays day).1 (civilFromDays day).2.1 ∧
    daysFromCivil (civilFromDays day).1 (civilFromDays day).2.1 (civilFromDays day).2.2 = day ∧
    (day + 719468) / 146097 * 400 ≤ (civilFromDays day).1 ∧
    (civilFromDays day).1 ≤ (day + 719468) / 146097 * 400 + 400 := by
  have hy := yearOfEra_spec ((day + 719468) % 146097) (by omega) (by omega)
  have hm := monthDay_spec (yearOfEra ((day + 719468) % 146097)).2 hy.2.2.1 hy.2.2.2.1
  have hz : day = (day + 719468) / 146097 * 146097 + (day + 719468) % 146097 - 719468 := by
    omega
  simp only [civilFromDays]
  generalize (day + 719468) % 146097 = r at *
  generalize (day + 719468) / 146097 = era at *
  generalize yearOfEra r = yd at *
  generalize monthDay yd.2 = md at *
  obtain ⟨yoe, doy⟩ := yd
  obtain ⟨m, d⟩ := md
  simp only [daysFromCivil, daysInMonth, isLeap] at *
  obtain ⟨m1, m12, d1, hdoy, hfeb, h30, h31, -, -⟩ := hm
  obtain ⟨y0, y399, -, -, hdoe, hleap⟩ := hy
  have k1 : (era * 400 + yoe) / 400 = era := by omega
  have k2 : (era * 400 + yoe) % 400 = yoe := by omega
  refine ⟨m1, m12, d1, ?_, ?_, ?_, ?_⟩
  · by_cases hm2 : m = 2
    · subst hm2
      simp only [show (2 : Int) ≤ 2 from le_refl _, if_true]
      have hf := hfeb rfl
      by_cases hl : doy = 365
      · have := hleap hl
        have c1 : (era * 400 + yoe + 1) % 4 = 0 := by omega
        have c2 : (era * 400 + yoe + 1) % 100 ≠ 0 ∨ (era * 400 + yoe + 1) % 400 = 0 := by
          rcases this.2 with h | h
          · left; omega
          · right; omega
        rw [if_pos ⟨c1, c2⟩]
        exact hf.1
      · have : d ≤ 28 := hf.2 (by omega)
        split_ifs <;> omega
    · simp only [hm2, if_false]
      split_ifs with h
      · exact h30 h
      · exact h31
  · by_cases hm2 : m ≤ 2
    · have hm2' : ¬ (m > 2) := by omega
      simp only [hm2, hm2', if_true, if_false] at *
      have : era * 400 + yoe + 1 - 1 = era * 400 + yoe := by ring
      rw [this, k1, k2, hdoy, hdoe]; omega
    · have hm2' : m > 2 := by omega
      simp only [hm2, hm2', if_true, if_false] at *
      rw [k1, k2, hdoy, hdoe]; omega
  · split_ifs <;> omega
  · split_ifs <;> omega

theorem parseDateTail_pad (year : Int) (mo d h mi s ms : Nat)
    (hmo : mo < 100) (hd : d < 100) (hh : h < 100) (hmi : mi < 100) (hs : s < 100)
    (hms : ms < 1000) :
    parseDateTail year ('-' :: pad2 mo ++ '-' :: pad2 d ++ 'T' :: pad2 h ++ ':' :: pad2 mi
      ++ ':' :: pad2 s ++ '.' :: pad3 ms ++ ['Z']) = makeTime year mo d h mi s ms := by
  simp [parseDateTail, pad2, pad3, num2_pad, num3_pad, hmo, hd, hh, hmi, hs, hms]

theorem parseDateTail_isoTail (year : Int) (mo d ms : Nat)
    (hmo : mo < 100) (hd : d < 100) (hms : ms < 86400000) :
    parseDateTail year (isoTail mo d ms)
      = makeTime year mo d (ms / 3600000) (ms / 60000 % 60) (ms / 1000 % 60) (ms % 1000) :=
  parseDateTail_pad year mo d _ _ _ _ hmo hd (by omega) (by omega) (by omega) (by omega)

theorem makeTime_civil (t : Int) (h : validTime t) :
    makeTime (civilFromDays (t / 86400000)).1 (civilFromDays (t / 86400000)).2.1.toNat
      (civilFromDays (t / 86400000)).2.2.toNat ((t % 86400000).toNat / 3600000)
      ((t % 86400000).toNat / 60000 % 60) ((t % 86400000).toNat / 1000 % 60)
      ((t % 86400000).toNat % 1000) = some t := by
  obtain ⟨m1, m12, d1, hdim, hrt, -, -⟩ := civilFromDays_spec (t / 86400000)
  generalize civilFromDays (t / 86400000) = c at *
  obtain ⟨y, m, d⟩ := c
  simp only at *
  have hd31 : d ≤ 31 := by
    refine le_trans hdim ?_
    unfold daysInMonth
    split_ifs <;> omega
  have hm : ((m.toNat : Nat) : Int) = m := Int.toNat_of_nonneg (by omega)
  have hd : ((d.toNat : Nat) : Int) = d := Int.toNat_of_nonneg (by omega)
  have hr0 : 0 ≤ t % 86400000 := Int.emod_nonneg _ (by decide)
  have hr1 : t % 86400000 < 86400000 := Int.emod_lt_of_pos _ (by decide)
  have hr : (((t % 86400000).toNat : Nat) : Int) = t % 86400000 := Int.toNat_of_nonneg hr0
  have ht : t = t / 86400000 * 86400000 + t % 86400000 := by omega
  generalize (t % 86400000).toNat = r at *
  have hval : daysFromCivil y ↑m.toNat ↑d.toNat * 86400000
      + ↑(r / 3600000) * 3600000 + ↑(r / 60000 % 60) * 60000 + ↑(r / 1000 % 60) * 1000
      + ↑(r % 1000) = t := by
    rw [hm, hd, hrt]
    push_cast
    omega
  unfold makeTime
  rw [hval, hm, hd]
  have c1 : 1 ≤ m.toNat ∧ m.toNat ≤ 12 ∧ 1 ≤ d.toNat ∧ d ≤ daysInMonth y m ∧
      r / 3600000 ≤ 23 ∧ r / 60000 % 60 ≤ 59 ∧ r / 1000 % 60 ≤ 59 :=
    ⟨by omega, by omega, by omega, hdim, by omega, by omega, by omega⟩
  rw [if_pos c1, if_pos h]

theorem civil_year_bound (t : Int) (h : validTime t) :
    -999999 ≤ (civilFromDays (t / 86400000)).1 ∧ (civilFromDays (t / 86400000)).1 ≤ 999999 := by
  obtain ⟨-, -, -, -, -, lo, hi⟩ := civilFromDays_spec (t / 86400000)
  obtain ⟨h1, h2⟩ := h
  constructor <;> omega

/-- `Date.parse` reads back the time value that `toISOString` has written. -/
theorem Date_parse_toISOString (t : Int) (h : validTime t) :
    Date.parse (toISOString t) = some t := by
  have hmk := makeTime_civil t h
  obtain ⟨ylo, yhi⟩ := civil_year_bound t h
  obtain ⟨m1, m12, d1, hdim, -, -, -⟩ := civilFromDays_spec (t / 86400000)
  have hd31 : (civilFromDays (t / 86400000)).2.2 ≤ 31 := by
    refine le_trans hdim ?_
    unfold daysInMonth
    split_ifs <;> omega
  have hr0 : 0 ≤ t % 86400000 := Int.emod_nonneg _ (by decide)
  have hr1 : t % 86400000 < 86400000 := Int.emod_lt_of_pos _ (by decide)
  have htail := parseDateTail_isoTail (civilFromDays (t / 86400000)).1
    (civilFromDays (t / 86400000)).2.1.toNat (civilFromDays (t / 86400000)).2.2.toNat
    (t % 86400000).toNat (by omega) (by omega) (by omega)
  rw [hmk] at htail
  unfold toISOString Date.parse
  generalize isoTail (civilFromDays (t / 86400000)).2.1.toNat
    (civilFromDays (t / 86400000)).2.2.toNat (t % 86400000).toNat = tail at *
  generalize (civilFromDays (t / 86400000)).1 = y at *
  unfold yearChars
  by_cases hy : 0 ≤ y ∧ y ≤ 9999
  · rw [if_pos hy]
    have hyn : ((y.toNat : Nat) : Int) = y := Int.toNat_of_nonneg hy.1
    have := num4_pad y.toNat (by omega)
    simp [pad4, this, digitChar_ne_sign, hyn, htail]
  · rw [if_neg hy]
    have hyabs : y.natAbs < 1000000 := by omega
    have := num6_pad y.natAbs hyabs
    by_cases hneg : y < 0
    · have hyn : -|y| = y := by rw [abs_of_neg hneg]; omega
      have hne : y ≠ 0 := by omega
      simp [pad6, this, hneg, hyn, hne, htail]
    · have hyn : ((y.natAbs : Nat) : Int) = y := by omega
      simp [pad6, this, hneg, hyn, htail]

/-! ## The models of the browser primitives on known values -/

/-- `toISOString` on known time values: the epoch, a leap day, the millisecond
before the epoch, and the two ends of the range of a `Date`. -/
theorem toISOString_examples :
    toISOString 0 = "1970-01-01T00:00:00.000Z" ∧
    toISOString 951782400000 = "2000-02-29T00:00:00.000Z" ∧
    toISOString (-1) = "1969-12-31T23:59:59.999Z" ∧
    toISOString 8640000000000000 = "+275760-09-13T00:00:00.000Z" ∧
    toISOString (-8640000000000000) = "-271821-04-20T00:00:00.000Z" := by
  decide

/-- `Date.parse` rejects a day that the month does not have. -/
theorem Date_parse_examples :
    Date.parse "2024-02-29T12:00:00.000Z" = some 1709208000000 ∧
    Date.parse "2023-02-29T12:00:00.000Z" = none ∧
    Date.parse "-000000-01-01T00:00:00.000Z" = none := by
  decide

/-- `JSON.parse` on texts that are not JSON and on texts that are. -/
theorem JSON_parse_examples :
    (JSON.parse "").isNone = true ∧
    (JSON.parse "01").isNone = true ∧
    (JSON.parse "[1,]").isNone = true ∧
    (JSON.parse "\x7b\"a\":1,\x7d").isNone = true ∧
    (JSON.parse "\"a\tb\"").isNone = true ∧
    (JSON.parse "nul").isNone = true ∧
    (JSON.parse " [1 , -2.5e-3, \"a\\n\\u0041\", \x7b \x7d, null, true] ").isSome = true ∧
    (JSON.parse "\x7b\"enabled\":true,\"enabled\":0\x7d").map enabledTruthy = some false := by
  decide

/-! ### localStorage -/

theorem getItem_removeItem (ls : Storage) (key : String) : getItem (removeItem ls key) key = none := by
  induction ls with
  | nil => rfl
  | cons e rest ih =>
    obtain ⟨k, v⟩ := e
    by_cases h : k = key
    · simp [removeItem, h, ih]
    · simp [removeItem, getItem, h, ih]

theorem getItem_setItem (ls : Storage) (key value : String) :
    getItem (setItem ls key value) key = some value := by
  simp [setItem, getItem]

theorem removeItem_absent (ls : Storage) (key : String) (h : getItem ls key = none) :
    removeItem ls key = ls := by
  induction ls with
  | nil => rfl
  | cons e rest ih =>
    obtain ⟨k, v⟩ := e
    by_cases hk : k = key
    · simp [getItem, hk] at h
    · simp only [getItem, hk, if_false] at h
      simp [removeItem, hk, ih h]

/-! ### The stored payload -/

theorem pad_plain (n : Nat) :
    plainChars (pad2 n) ∧ plainChars (pad3 n) ∧ plainChars (pad4 n) ∧ plainChars (pad6 n) := by
  simp [plainChars, pad2, pad3, pad4, pad6, digitChar_plain]

theorem yearChars_plain (y : Int) : plainChars (yearChars y) := by
  unfold yearChars
  intro c hc
  split_ifs at hc with h1 h2
  · exact (pad_plain _).2.2.1 c hc
  · rcases List.mem_cons.1 hc with rfl | hc
    · decide
    · exact (pad_plain _).2.2.2 c hc
  · rcases List.mem_cons.1 hc with rfl | hc
    · decide
    · exact (pad_plain _).2.2.2 c hc

theorem isoTail_plain (mo d ms : Nat) : plainChars (isoTail mo d ms) := by
  intro c hc
  simp only [isoTail, pad2, pad3, List.cons_append, List.nil_append, List.mem_cons,
    List.mem_singleton, List.not_mem_nil, or_false] at hc
  rcases hc with rfl | rfl | rfl | rfl | rfl | rfl | rfl | rfl | rfl | rfl | rfl | rfl | rfl |
    rfl | rfl | rfl | rfl | rfl | rfl | rfl <;> first | exact digitChar_plain _ | decide

theorem toISOString_plain (t : Int) : plainChars (toISOString t).data := by
  intro c hc
  simp only [toISOString, List.mem_append] at hc
  rcases hc with hc | hc
  · exact yearChars_plain _ c hc
  · exact isoTail_plain _ _ _ c hc

/-- `JSON.parse` returns the payload object that `saveReminder` has serialised. -/
theorem parse_payload (now : Int) :
    JSON.parse (JSON.stringify (payload now)) = some (payload now).toJson :=
  parse_stringify (payload now) (toISOString_plain now)
    (show plainChars "Vivid Sydney 2026".data by decide)
    (show plainChars "22 May – 13 June 2026".data by decide)

theorem stringify_ne_empty (p : ReminderPayload) : JSON.stringify p ≠ "" := by
  intro h
  have := congrArg String.data h
  simp [JSON.stringify] at this

theorem getItem_saveReminder (now : Int) (ls : Storage) :
    getItem (saveReminder now ls) REMINDER_KEY = some (JSON.stringify (payload now)) :=
  getItem_setItem _ _ _

/-- `getReminder()` after `saveReminder()` returns the payload and leaves the storage as it is. -/
theorem getReminder_saveReminder (now : Int) (ls : Storage) :
    getReminder (saveReminder now ls) = ((payload now).toJson, saveReminder now ls) := by
  unfold getReminder
  rw [getItem_saveReminder]
  simp [stringify_ne_empty, parse_payload]

theorem enabledTruthy_payload (now : Int) : enabledTruthy (payload now).toJson = true := by
  simp [enabledTruthy, ReminderPayload.toJson, JsonValue.getProp, lookupLast, payload,
    JsonValue.truthy]

/-! ## The reminder store -/

/-- A stored string that is not valid JSON and not empty: `getReminder()` returns
`null` and deletes the key. -/
theorem getReminder_corrupt (ls : Storage) (raw : String) (hraw : raw ≠ "")
    (hbad : JSON.parse raw = none) :
    (getReminder (setItem ls REMINDER_KEY raw)).1 = .null ∧
    getItem (getReminder (setItem ls REMINDER_KEY raw)).2 REMINDER_KEY = none := by
  unfold getReminder
  rw [getItem_setItem]
  simp [hraw, hbad, clearReminder, getItem_removeItem]

/-- C1, at the empty string: the empty string is not valid JSON, yet `getReminder()`
on a storage that holds it under the reminder key returns `null` without deleting
the key, which still holds the empty string afterwards. -/
theorem getReminder_empty_string_not_cleaned (ls : Storage) :
    JSON.parse "" = none ∧
    (getReminder (setItem ls REMINDER_KEY "")).1 = .null ∧
    getItem (getReminder (setItem ls REMINDER_KEY "")).2 REMINDER_KEY = some "" := by
  refine ⟨rfl, ?_, ?_⟩
  · unfold getReminder
    rw [getItem_setItem]
    rfl
  · unfold getReminder
    rw [getItem_setItem]
    exact getItem_setItem _ _ _

/-- C2: `saveReminder()` at clock reading `tSave`, then `getReminder()` at a later
reading `tGet`, returns the record with `enabled = true`, the two fixed strings and
a `savedAt` that `Date.parse` reads as `tSave`, which is not later than `tGet`. -/
theorem save_then_get (ls : Storage) (tSave tGet : Int) (hvalid : validTime tSave)
    (hclock : tSave ≤ tGet) :
    ∃ savedAt ts,
      (getReminder (saveReminder tSave ls)).1.getProp "enabled" = some (.bool true) ∧
      (getReminder (saveReminder tSave ls)).1.getProp "event" = some (.str "Vivid Sydney 2026") ∧
      (getReminder (saveReminder tSave ls)).1.getProp "dates"
        = some (.str "22 May – 13 June 2026") ∧
      (getReminder (saveReminder tSave ls)).1.getProp "savedAt" = some (.str savedAt) ∧
      Date.parse savedAt = some ts ∧ ts = tSave ∧ ts ≤ tGet := by
  refine ⟨toISOString tSave, tSave, ?_, ?_, ?_, ?_, Date_parse_toISOString tSave hvalid, rfl,
    hclock⟩ <;>
  · rw [getReminder_saveReminder]
    simp [ReminderPayload.toJson, JsonValue.getProp, lookupLast, payload]

theorem save_then_get_witness :
    ∃ savedAt ts,
      (getReminder (saveReminder 1700000000000 [])).1.getProp "enabled" = some (.bool true) ∧
      (getReminder (saveReminder 1700000000000 [])).1.getProp "event"
        = some (.str "Vivid Sydney 2026") ∧
      (getReminder (saveReminder 1700000000000 [])).1.getProp "dates"
        = some (.str "22 May – 13 June 2026") ∧
      (getReminder (saveReminder 1700000000000 [])).1.getProp "savedAt" = some (.str savedAt) ∧
      Date.parse savedAt = some ts ∧ ts = 1700000000000 ∧ ts ≤ 1700000000005 :=
  save_then_get [] 1700000000000 1700000000005 (by decide) (by decide)

theorem savedAtOf_saveReminder (now : Int) (ls : Storage) :
    savedAtOf (saveReminder now ls) = some (toISOString now) := by
  unfold savedAtOf
  rw [getReminder_saveReminder]
  simp [ReminderPayload.toJson, JsonValue.getProp, lookupLast, payload]

/-- The claim C6 fails when both calls read the same millisecond: two successive
calls of `saveReminder()` at clock reading 1700000000000 write the same `savedAt`. -/
theorem same_millisecond_same_savedAt :
    savedAtOf (saveReminder 1700000000000 []) = some "2023-11-14T22:13:20.000Z" ∧
    savedAtOf (saveReminder 1700000000000 (saveReminder 1700000000000 []))
      = some "2023-11-14T22:13:20.000Z" := by
  constructor <;>
  · rw [savedAtOf_saveReminder]
    decide

/-- C6, amended: for two successive calls of `saveReminder()` at clock readings
`t1 ≤ t2`, the second `savedAt` is not earlier than the first, and the two values
differ exactly when the readings differ. -/
theorem save_twice (ls : Storage) (t1 t2 : Int) (h1 : validTime t1) (h2 : validTime t2)
    (hclock : t1 ≤ t2) :
    ∃ a b ta tb,
      savedAtOf (saveReminder t1 ls) = some a ∧
      savedAtOf (saveReminder t2 (saveReminder t1 ls)) = some b ∧
      Date.parse a = some ta ∧ Date.parse b = some tb ∧ ta ≤ tb ∧
      (a ≠ b ↔ t1 ≠ t2) := by
  refine ⟨toISOString t1, toISOString t2, t1, t2, savedAtOf_saveReminder _ _,
    savedAtOf_saveReminder _ _, Date_parse_toISOString t1 h1, Date_parse_toISOString t2 h2,
    hclock, ?_⟩
  constructor
  · intro hne heq
    exact hne (by rw [heq])
  · intro hne heq
    have e1 := Date_parse_toISOString t1 h1
    rw [heq, Date_parse_toISOString t2 h2] at e1
    exact hne (Option.some.inj e1).symm

theorem save_twice_witness :
    ∃ a b ta tb,
      savedAtOf (saveReminder 1700000000000 []) = some a ∧
      savedAtOf (saveReminder 1700000000001 (saveReminder 1700000000000 [])) = some b ∧
      Date.parse a = some ta ∧ Date.parse b = some tb ∧ ta ≤ tb ∧
      (a ≠ b ↔ (1700000000000 : Int) ≠ 1700000000001) :=
  save_twice [] 1700000000000 1700000000001 (by decide) (by decide) (by decide)

/-- C7: `getReminder()` right after `clearReminder()` returns `null`, and
`clearReminder()` leaves a storage without the key unchanged. -/
theorem get_after_clear (ls : Storage) :
    (getReminder (clearReminder ls)).1 = .null ∧
    (getItem ls REMINDER_KEY = none → clearReminder ls = ls) := by
  constructor
  · unfold getReminder clearReminder
    rw [getItem_removeItem]
  · intro h
    exact removeItem_absent ls _ h

theorem get_after_clear_witness :
    (getReminder (clearReminder [("theme", "dark")])).1 = .null ∧
    clearReminder [("theme", "dark")] = [("theme", "dark")] :=
  ⟨(get_after_clear [("theme", "dark")]).1, (get_after_clear [("theme", "dark")]).2 (by decide)⟩

/-! ## Storage effects of the page operations -/

theorem toast_storage (m : String) (o : ToastOptions) (s : State) :
    (toast m o s).storage = s.storage ∧ (toast m o s).reminderBtn = s.reminderBtn := by
  unfold toast createToastContainer
  cases s.container <;> simp

theorem removeToast_storage (el : Nat) (s : State) :
    (removeToast el s).storage = s.storage ∧ (removeToast el s).reminderBtn = s.reminderBtn := by
  unfold removeToast
  cases s.els[el]? <;> simp

/-- What `getReminder()` does to the storage: nothing, unless the stored string is
not empty and not valid JSON, in which case the key is deleted. -/
theorem getReminder_storage (ls : Storage) :
    (getReminder ls).2 = ls ∨
    ((getReminder ls).2 = clearReminder ls ∧ (getReminder ls).1 = .null ∧
      ∃ raw, getItem ls REMINDER_KEY = some raw ∧ raw ≠ "" ∧ JSON.parse raw = none) := by
  unfold getReminder
  cases h : getItem ls REMINDER_KEY with
  | none => left; rfl
  | some raw =>
    by_cases hr : raw = ""
    · left; simp [hr]
    · cases hp : JSON.parse raw with
      | none => right; simp [hr, hp]
      | some v => left; simp [hr, hp]

theorem enabledTruthy_null : enabledTruthy .null = false := rfl

/-- A truthy `enabled` comes from a stored value, which `getReminder()` leaves in place. -/
theorem getReminder_enabled (ls : Storage) (h : enabledTruthy (getReminder ls).1 = true) :
    (getReminder ls).2 = ls ∧ getItem ls REMINDER_KEY ≠ none := by
  constructor
  · rcases getReminder_storage ls with h1 | ⟨-, h2, -⟩
    · exact h1
    · rw [h2] at h; exact absurd h (by decide)
  · intro hn
    unfold getReminder at h
    rw [hn] at h
    simp [enabledTruthy_null] at h

theorem getItem_clearReminder (ls : Storage) : getItem (clearReminder ls) REMINDER_KEY = none :=
  getItem_removeItem ls _

theorem getReminder_clearReminder (ls : Storage) :
    getReminder (clearReminder ls) = (.null, clearReminder ls) := by
  unfold getReminder
  rw [getItem_clearReminder]

theorem updateReminderBtnState_storage (s : State) :
    (updateReminderBtnState s).storage = s.storage ∨
    (updateReminderBtnState s).storage = (getReminder s.storage).2 := by
  unfold updateReminderBtnState
  cases s.reminderBtn with
  | none => left; rfl
  | some b =>
    right
    simp only
    split_ifs <;> rfl

/-! ## The toggle button -/

/-- The claim C5 fails on a stored record whose `enabled` is `false`: `getReminder()`
returns that record, not `null`, and `updateReminderBtnState()` sets the label
"Remind me" with `aria-pressed` "false". -/
theorem button_idle_for_disabled_record :
    (getReminder (freshPage [(REMINDER_KEY, "\x7b\"enabled\":false\x7d")]).storage).1
      = .obj [("enabled", .bool false)] ∧
    (updateReminderBtnState (freshPage [(REMINDER_KEY, "\x7b\"enabled\":false\x7d")])).reminderBtn
      = some { textContent := "Remind me", ariaPressed := some "false", dataState := some "idle" } := by
  constructor
  · rfl
  · decide

/-- C5, amended: when the button exists, `updateReminderBtnState()` sets the label
"Reminder saved ✓" and `aria-pressed` "true" exactly when the value returned by
`getReminder()` has a truthy `enabled`, and the label "Remind me" and `aria-pressed`
"false" exactly when it has not, which includes the case where `getReminder()`
returns `null`; when the button does not exist the state is unchanged. -/
theorem updateReminderBtnState_spec (s : State) :
    (s.reminderBtn = none → updateReminderBtnState s = s) ∧
    (∀ btn, s.reminderBtn = some btn →
      ((updateReminderBtnState s).reminderBtn
          = some { textContent := "Reminder saved ✓", ariaPressed := some "true",
                   dataState := some "saved" }
        ↔ enabledTruthy (getReminder s.storage).1 = true) ∧
      ((updateReminderBtnState s).reminderBtn
          = some { textContent := "Remind me", ariaPressed := some "false",
                   dataState := some "idle" }
        ↔ enabledTruthy (getReminder s.storage).1 = false) ∧
      ((getReminder s.storage).1 = .null →
        (updateReminderBtnState s).reminderBtn
          = some { textContent := "Remind me", ariaPressed := some "false",
                   dataState := some "idle" })) := by
  constructor
  · intro h
    unfold updateReminderBtnState
    rw [h]
  · intro btn h
    unfold updateReminderBtnState
    rw [h]
    simp only
    cases he : enabledTruthy (getReminder s.storage).1
    · refine ⟨?_, ?_, ?_⟩
      · simp
      · simp
      · intro _; simp
    · refine ⟨?_, ?_, ?_⟩
      · simp
      · simp
      · intro hn
        rw [hn] at he
        exact absurd he (by decide)

theorem updateReminderBtnState_spec_witness :
    updateReminderBtnState { freshPage [] with reminderBtn := none }
      = { freshPage [] with reminderBtn := none } ∧
    ((updateReminderBtnState (freshPage [])).reminderBtn
        = some { textContent := "Remind me", ariaPressed := some "false",
                 dataState := some "idle" }) :=
  ⟨(updateReminderBtnState_spec { freshPage [] with reminderBtn := none }).1 rfl,
   ((updateReminderBtnState_spec (freshPage [])).2 _ rfl).2.2 rfl⟩

/-! ## The duration of a toast -/

theorem toast_timers (m : String) (o : ToastOptions) (s : State) :
    (toast m o s).timers
      = s.timers ++ [{ id := s.nextTimer, delay := toastDuration o, callback := .autoRemove s.els.length }] ∧
    (toast m o s).nextTimer = s.nextTimer + 1 := by
  unfold toast createToastContainer
  cases s.container <;> simp

theorem toast_els (m : String) (o : ToastOptions) (s : State) :
    (toast m o s).els
      = s.els ++ [{ message := m, action := toastAction o, opacity := "0",
                    transform := "translateY(8px)", toastTimer := s.nextTimer }] := by
  unfold toast createToastContainer
  cases s.container <;> simp

/-- The claim C10 fails for the duration 0: `toast()` passes the delay 0 to
`setTimeout`, not the default 3200. -/
theorem toast_duration_zero_not_default :
    (toast "Saved" { duration := .number (.finite 0), actionText := none, onAction := none }
      (freshPage [])).timers
      = [{ id := 1, delay := 0, callback := .autoRemove 0 }] := by
  decide

/-- C10, amended: `toast()` schedules the automatic removal with the delay
`options.duration` for every duration that is a finite number (zero, negative and
fractional ones included), and with the default 3200 for every other value
(missing, `NaN`, an infinity, a string, any value that is not a number). -/
theorem toast_duration_spec (m : String) (o : ToastOptions) (s : State) :
    (∀ q, o.duration = .number (.finite q) →
      (toast m o s).timers
        = s.timers ++ [{ id := s.nextTimer, delay := q, callback := .autoRemove s.els.length }]) ∧
    ((∀ q, o.duration ≠ .number (.finite q)) →
      (toast m o s).timers
        = s.timers ++ [{ id := s.nextTimer, delay := 3200, callback := .autoRemove s.els.length }]) := by
  constructor
  · intro q hq
    rw [(toast_timers m o s).1]
    simp [toastDuration, hq]
  · intro hq
    rw [(toast_timers m o s).1]
    have : toastDuration o = 3200 := by
      unfold toastDuration
      split
      · next q h => exact absurd h (hq q)
      · rfl
    rw [this]

theorem toast_duration_spec_witness :
    (toast "Saved" { duration := .number (.finite (5 / 2)), actionText := none, onAction := none }
        (freshPage [])).timers
      = [] ++ [{ id := 1, delay := 5 / 2, callback := .autoRemove 0 }] ∧
    (toast "Saved" { duration := .string "100", actionText := none, onAction := none }
        (freshPage [])).timers
      = [] ++ [{ id := 1, delay := 3200, callback := .autoRemove 0 }] :=
  ⟨(toast_duration_spec "Saved"
      { duration := .number (.finite (5 / 2)), actionText := none, onAction := none }
      (freshPage [])).1 _ rfl,
   (toast_duration_spec "Saved"
      { duration := .string "100", actionText := none, onAction := none }
      (freshPage [])).2 (by intro q h; cases h)⟩

/-! ## The record invariant -/

theorem storageOk_saveReminder (now : Int) (ls : Storage) : storageOk (saveReminder now ls) := by
  right
  refine ⟨_, _, getItem_saveReminder now ls, parse_payload now, ?_, ?_, ?_⟩ <;>
    simp [ReminderPayload.toJson, JsonValue.getProp, lookupLast, payload]

theorem storageOk_clearReminder (ls : Storage) : storageOk (clearReminder ls) :=
  Or.inl (getItem_clearReminder ls)

theorem storageOk_getReminder (ls : Storage) (h : storageOk ls) : storageOk (getReminder ls).2 := by
  rcases getReminder_storage ls with h1 | ⟨h1, -⟩
  · rw [h1]; exact h
  · rw [h1]; exact storageOk_clearReminder ls

theorem storageOk_updateReminderBtnState (s : State) (h : storageOk s.storage) :
    storageOk (updateReminderBtnState s).storage := by
  rcases updateReminderBtnState_storage s with h1 | h1
  · rw [h1]; exact h
  · rw [h1]; exact storageOk_getReminder _ h

theorem storageOk_runCallback (cb : Callback) (s : State) : storageOk (runCallback cb s).storage := by
  cases cb
  unfold runCallback
  rw [(toast_storage _ _ _).1]
  exact storageOk_updateReminderBtnState _ (storageOk_clearReminder _)

theorem storageOk_handleReminderClick (now : Int) (s : State) (h : storageOk s.storage) :
    storageOk (handleReminderClick now s).storage := by
  unfold handleReminderClick
  split_ifs
  · rw [(toast_storage _ _ _).1]
    exact storageOk_getReminder _ h
  · rw [(toast_storage _ _ _).1]
    exact storageOk_updateReminderBtnState _ (storageOk_saveReminder _ _)

theorem storageOk_onDomContentLoaded (s : State) (h : storageOk s.storage) :
    storageOk (onDomContentLoaded s).storage := by
  unfold onDomContentLoaded
  have h1 := storageOk_updateReminderBtnState s h
  simp only
  split_ifs
  · rw [(toast_storage _ _ _).1]
    exact storageOk_getReminder _ h1
  · exact storageOk_getReminder _ h1

theorem detach_storage (el : Nat) (s : State) : (detach el s).storage = s.storage := rfl

theorem fireTimer_storage (tm : Timer) (s : State) : (fireTimer tm s).storage = s.storage := by
  unfold fireTimer
  cases tm.callback with
  | autoRemove el => simp only; rw [(removeToast_storage _ _).1]
  | detach el => rfl

theorem actionClick_storage (el : Nat) (cb : Callback) (s : State) :
    (actionClick el cb s).storage
      = (runCallback cb { s with trace := s.trace ++ [.actionCallback el cb] }).storage := by
  unfold actionClick
  rw [(removeToast_storage _ _).1, (removeToast_storage _ _).1]

theorem storageOk_step (s : State) (e : Event) (h : storageOk s.storage) :
    storageOk (step s e).storage := by
  cases e with
  | domContentLoaded =>
    simp only [step]
    split_ifs
    · exact h
    · exact storageOk_onDomContentLoaded s h
  | clickReminderBtn now =>
    simp only [step]
    split_ifs
    · exact storageOk_handleReminderClick now s h
    · exact h
  | clickToast el =>
    simp only [step]
    split_ifs
    · rw [(removeToast_storage _ _).1]; exact h
    · exact h
  | clickAction el =>
    simp only [step]
    split_ifs
    · cases s.els[el]? with
      | none => exact h
      | some e =>
        cases ha : e.action with
        | none => simp only [ha]; exact h
        | some a =>
          simp only [ha]
          rw [actionClick_storage]
          exact storageOk_runCallback _ _
    · exact h
  | timer id =>
    simp only [step]
    cases s.timers.find? (fun tm => decide (tm.id = id)) with
    | none => exact h
    | some tm => simp only; rw [fireTimer_storage]; exact h
  | animationFrame => exact h

theorem storageOk_applyOp (s : State) (op : Op) (h : storageOk s.storage) :
    storageOk (applyOp s op).storage := by
  cases op with
  | saveReminder now => exact storageOk_saveReminder _ _
  | clearReminder => exact storageOk_clearReminder _
  | getReminder => exact storageOk_getReminder _ h
  | updateReminderBtnState => exact storageOk_updateReminderBtnState _ h
  | handleReminderClick now => exact storageOk_handleReminderClick _ _ h
  | removeAction => exact storageOk_runCallback .removeReminder s
  | event e => exact storageOk_step _ _ h

theorem storageOk_runOps (ops : List Op) (s : State) (h : storageOk s.storage) :
    storageOk (runOps s ops).storage := by
  induction ops generalizing s with
  | nil => exact h
  | cons op ops ih => exact ih (applyOp s op) (storageOk_applyOp s op h)

/-- C3: in every state reached from an empty storage by the operations of the
script (`saveReminder`, `clearReminder`, `getReminder`, `updateReminderBtnState`,
the click handler, the Remove action, and the page events), the key is absent or
holds valid JSON of an object whose `enabled` is `true` and whose `event` and
`dates` are the two fixed strings. -/
theorem record_invariant (s0 : State) (ops : List Op) (hempty : s0.storage = []) :
    storageOk (runOps s0 ops).storage :=
  storageOk_runOps ops s0 (Or.inl (by rw [hempty]; rfl))

theorem record_invariant_witness :
    storageOk (runOps (freshPage [])
      [.event .domContentLoaded, .event (.clickReminderBtn 1700000000000), .getReminder,
       .event (.clickReminderBtn 1700000000100), .removeAction,
       .saveReminder 1700000000200]).storage :=
  record_invariant (freshPage []) _ rfl

/-! ## The click handler -/

theorem updateReminderBtnState_saved (now : Int) (s : State) (btn : Button)
    (hbtn : s.reminderBtn = some btn) :
    updateReminderBtnState { s with storage := saveReminder now s.storage }
      = { s with
          storage := saveReminder now s.storage
          reminderBtn := some { textContent := "Reminder saved ✓", ariaPressed := some "true",
                                dataState := some "saved" } } := by
  unfold updateReminderBtnState
  simp only [hbtn, getReminder_saveReminder, enabledTruthy_payload, if_true]

theorem updateReminderBtnState_cleared (s : State) (btn : Button)
    (hbtn : s.reminderBtn = some btn) (tr : List Effect) :
    updateReminderBtnState { s with storage := clearReminder s.storage, trace := tr }
      = { s with
          storage := clearReminder s.storage
          trace := tr
          reminderBtn := some { textContent := "Remind me", ariaPressed := some "false",
                                dataState := some "idle" } } := by
  unfold updateReminderBtnState
  simp only [hbtn, getReminder_clearReminder, enabledTruthy_null]
  rfl

theorem handleReminderClick_present (now : Int) (s : State) :
    getItem (handleReminderClick now s).storage REMINDER_KEY ≠ none := by
  unfold handleReminderClick
  split_ifs with h
  · rw [(toast_storage _ _ _).1]
    simp only
    rw [(getReminder_enabled _ h).1]
    exact (getReminder_enabled _ h).2
  · rw [(toast_storage _ _ _).1]
    rcases updateReminderBtnState_storage
      { s with storage := saveReminder now (getReminder s.storage).2 } with h1 | h1
    · rw [h1]; simp only; rw [getItem_saveReminder]; simp
    · rw [h1]; simp only; rw [getReminder_saveReminder, getItem_saveReminder]; simp

theorem getReminder_removes (ls : Storage) (hp : getItem ls REMINDER_KEY ≠ none)
    (ha : getItem (getReminder ls).2 REMINDER_KEY = none) :
    ∃ raw, getItem ls REMINDER_KEY = some raw ∧ raw ≠ "" ∧ JSON.parse raw = none := by
  rcases getReminder_storage ls with h1 | ⟨-, -, h⟩
  · rw [h1] at ha; exact absurd ha hp
  · exact h

/-- A page event takes the key from present to absent only by a click on an action
button, or by the clean-up of a stored string that is not valid JSON. -/
theorem step_key_removed (s : State) (e : Event) (hp : getItem s.storage REMINDER_KEY ≠ none)
    (ha : getItem (step s e).storage REMINDER_KEY = none) :
    (∃ el, e = .clickAction el) ∨
    (∃ raw, getItem s.storage REMINDER_KEY = some raw ∧ raw ≠ "" ∧ JSON.parse raw = none) := by
  cases e with
  | clickAction el => exact Or.inl ⟨el, rfl⟩
  | domContentLoaded =>
    right
    simp only [step] at ha
    split_ifs at ha
    · exact absurd ha hp
    · have hfin : (onDomContentLoaded s).storage
          = (getReminder (updateReminderBtnState s).storage).2 := by
        unfold onDomContentLoaded
        simp only
        split_ifs
        · rw [(toast_storage _ _ _).1]
        · rfl
      rw [hfin] at ha
      by_cases hmid : getItem (updateReminderBtnState s).storage REMINDER_KEY = none
      · rcases updateReminderBtnState_storage s with h1 | h1
        · rw [h1] at hmid; exact absurd hmid hp
        · rw [h1] at hmid; exact getReminder_removes _ hp hmid
      · have hcor := getReminder_removes _ hmid ha
        rcases updateReminderBtnState_storage s with h1 | h1
        · rw [h1] at hcor; exact hcor
        · rcases getReminder_storage s.storage with h2 | ⟨h2, -, h3⟩
          · rw [h1, h2] at hcor; exact hcor
          · exact h3
  | clickReminderBtn now =>
    simp only [step] at ha
    split_ifs at ha
    · exact absurd ha (handleReminderClick_present now s)
    · exact absurd ha hp
  | clickToast el =>
    simp only [step] at ha
    split_ifs at ha
    · rw [(removeToast_storage _ _).1] at ha; exact absurd ha hp
    · exact absurd ha hp
  | timer id =>
    simp only [step] at ha
    cases hf : s.timers.find? (fun tm => decide (tm.id = id)) with
    | none => rw [hf] at ha; exact absurd ha hp
    | some tm => rw [hf] at ha; simp only at ha; rw [fireTimer_storage] at ha; exact absurd ha hp
  | animationFrame => exact absurd ha hp

/-- The claim C4 fails on a stored record whose `enabled` is `false`: `getReminder()`
returns that record, and the click handler overwrites the stored value. -/
theorem click_overwrites_disabled_record :
    (getReminder (freshPage [(REMINDER_KEY,
        "\x7b\"enabled\":false,\"savedAt\":\"2026-05-01T09:00:00.000Z\",\"event\":\"Vivid Sydney 2026\",\"dates\":\"22 May – 13 June 2026\"\x7d")]).storage).1
      = .obj [("enabled", .bool false), ("savedAt", .str "2026-05-01T09:00:00.000Z"),
              ("event", .str "Vivid Sydney 2026"), ("dates", .str "22 May – 13 June 2026")] ∧
    getItem (handleReminderClick 1700000000000 (freshPage [(REMINDER_KEY,
        "\x7b\"enabled\":false,\"savedAt\":\"2026-05-01T09:00:00.000Z\",\"event\":\"Vivid Sydney 2026\",\"dates\":\"22 May – 13 June 2026\"\x7d")])).storage
        REMINDER_KEY
      = some "\x7b\"enabled\":true,\"savedAt\":\"2023-11-14T22:13:20.000Z\",\"event\":\"Vivid Sydney 2026\",\"dates\":\"22 May – 13 June 2026\"\x7d" := by
  constructor
  · rfl
  · decide

/-- C4, amended: the click handler branches on the truthiness of `enabled` in the
value returned by `getReminder()`. When it is not truthy (in particular when
`getReminder()` returns `null`) the handler writes a record, so that the next
`getReminder()` returns it and the button is in the "saved" state. When it is
truthy the handler leaves storage and button unchanged and only shows a toast
offering "Remove". The Remove action clears the key, sets the button to "idle" and
then shows the toast "Reminder removed.". The click handler never leaves the key
absent, and a page event takes the key from present to absent only when it is a
click on an action button or when the stored string is not valid JSON. -/
theorem toggle_state_machine (s : State) (now : Int) (btn : Button)
    (hbtn : s.reminderBtn = some btn) :
    (enabledTruthy (getReminder s.storage).1 = false →
      getItem (handleReminderClick now s).storage REMINDER_KEY
        = some (JSON.stringify (payload now)) ∧
      (getReminder (handleReminderClick now s).storage).1 = (payload now).toJson ∧
      (handleReminderClick now s).reminderBtn
        = some { textContent := "Reminder saved ✓", ariaPressed := some "true",
                 dataState := some "saved" }) ∧
    (enabledTruthy (getReminder s.storage).1 = true →
      (handleReminderClick now s).storage = s.storage ∧
      (handleReminderClick now s).reminderBtn = s.reminderBtn ∧
      (handleReminderClick now s).els
        = s.els ++ [{ message := "Reminder is already saved."
                      action := some ("Remove", .removeReminder)
                      opacity := "0", transform := "translateY(8px)"
                      toastTimer := s.nextTimer }]) ∧
    (getItem (runCallback .removeReminder s).storage REMINDER_KEY = none ∧
      (runCallback .removeReminder s).reminderBtn
        = some { textContent := "Remind me", ariaPressed := some "false",
                 dataState := some "idle" } ∧
      (runCallback .removeReminder s).els
        = s.els ++ [{ message := "Reminder removed.", action := none, opacity := "0"
                      transform := "translateY(8px)", toastTimer := s.nextTimer }]) ∧
    getItem (handleReminderClick now s).storage REMINDER_KEY ≠ none ∧
    (∀ e, getItem s.storage REMINDER_KEY ≠ none → getItem (step s e).storage REMINDER_KEY = none →
      (∃ el, e = .clickAction el) ∨
      (∃ raw, getItem s.storage REMINDER_KEY = some raw ∧ raw ≠ "" ∧ JSON.parse raw = none)) := by
  refine ⟨?_, ?_, ?_, handleReminderClick_present now s, fun e hp ha => step_key_removed s e hp ha⟩
  · intro h
    have hu := updateReminderBtnState_saved now { s with storage := (getReminder s.storage).2 } btn hbtn
    simp only at hu
    unfold handleReminderClick
    rw [if_neg (by simp [h]), (toast_storage _ _ _).1, (toast_storage _ _ _).2, hu]
    refine ⟨?_, ?_, ?_⟩
    · exact getItem_saveReminder _ _
    · simp only; rw [getReminder_saveReminder]
    · rfl
  · intro h
    unfold handleReminderClick
    rw [if_pos h, (toast_storage _ _ _).1, (toast_storage _ _ _).2, toast_els]
    refine ⟨?_, ?_, ?_⟩
    · exact (getReminder_enabled _ h).1
    · rfl
    · rfl
  · have hu := updateReminderBtnState_cleared s btn hbtn
      (s.trace ++ [.callbackRan .removeReminder])
    unfold runCallback
    simp only
    rw [(toast_storage _ _ _).1, (toast_storage _ _ _).2, toast_els, hu]
    refine ⟨?_, ?_, ?_⟩
    · exact getItem_clearReminder _
    · rfl
    · rfl

theorem toggle_state_machine_witness :
    getItem (handleReminderClick 1700000000000 (freshPage [])).storage REMINDER_KEY
      = some (JSON.stringify (payload 1700000000000)) ∧
    (handleReminderClick 1700000000001
        (handleReminderClick 1700000000000 (freshPage []))).storage
      = (handleReminderClick 1700000000000 (freshPage [])).storage ∧
    getItem (runCallback .removeReminder
        (handleReminderClick 1700000000000 (freshPage []))).storage REMINDER_KEY = none :=
  ⟨((toggle_state_machine (freshPage []) 1700000000000 _ rfl).1 rfl).1,
   ((toggle_state_machine (handleReminderClick 1700000000000 (freshPage [])) 1700000000001
      { textContent := "Reminder saved ✓", ariaPressed := some "true", dataState := some "saved" }
      (((toggle_state_machine (freshPage []) 1700000000000 _ rfl).1 rfl).2.2)).2.1
      (by rw [((toggle_state_machine (freshPage []) 1700000000000 _ rfl).1 rfl).2.1]
          exact enabledTruthy_payload _)).1,
   ((toggle_state_machine (handleReminderClick 1700000000000 (freshPage [])) 1700000000000
      { textContent := "Reminder saved ✓", ariaPressed := some "true", dataState := some "saved" }
      (((toggle_state_machine (freshPage []) 1700000000000 _ rfl).1 rfl).2.2)).2.2.1).1⟩

/-! ## Toasts and timers: what each function changes -/

theorem updateReminderBtnState_frame (s : State) :
    (updateReminderBtnState s).container = s.container ∧
    (updateReminderBtnState s).els = s.els ∧
    (updateReminderBtnState s).timers = s.timers ∧
    (updateReminderBtnState s).nextTimer = s.nextTimer ∧
    (updateReminderBtnState s).trace = s.trace := by
  unfold updateReminderBtnState
  cases s.reminderBtn with
  | none => exact ⟨rfl, rfl, rfl, rfl, rfl⟩
  | some b => simp only; split_ifs <;> exact ⟨rfl, rfl, rfl, rfl, rfl⟩

theorem toast_frame (m : String) (o : ToastOptions) (s : State) :
    (toast m o s).container = some (s.container.getD [] ++ [s.els.length]) ∧
    (toast m o s).trace = s.trace := by
  unfold toast createToastContainer
  cases h : s.container <;> simp [h]

theorem timerOf_append (els : List ToastEl) (x : ToastEl) (el : Nat) :
    timerOf (els ++ [x]) el
      = if el < els.length then timerOf els el
        else if el = els.length then some x.toastTimer else none := by
  unfold timerOf
  split_ifs with h1 h2
  · rw [List.getElem?_append_left h1]
  · subst h2; simp
  · have h3 : (els ++ [x]).length ≤ el := by simp; omega
    rw [List.getElem?_eq_none h3]
    rfl

theorem timerOf_some_lt (els : List ToastEl) (el id : Nat) (h : timerOf els el = some id) :
    el < els.length := by
  unfold timerOf at h
  by_contra hn
  rw [List.getElem?_eq_none (by omega)] at h
  simp at h

theorem timerOf_set (els : List ToastEl) (k : Nat) (e e' : ToastEl) (hk : els[k]? = some e)
    (ht : e'.toastTimer = e.toastTimer) (el : Nat) :
    timerOf (els.set k e') el = timerOf els el := by
  unfold timerOf
  by_cases h : k = el
  · subst h
    have hlt : k < els.length := by
      by_contra hn
      rw [List.getElem?_eq_none (by omega)] at hk
      simp at hk
    rw [List.getElem?_set_self hlt, hk]
    simp [ht]
  · rw [List.getElem?_set_ne h]

theorem timerOf_restyle (els : List ToastEl) (k : Nat) (e : ToastEl) (hk : els[k]? = some e)
    (op tr : String) (el : Nat) :
    timerOf (els.set k { e with opacity := op, transform := tr }) el = timerOf els el :=
  timerOf_set els k e { e with opacity := op, transform := tr } hk rfl el

theorem clearTimeout_sublist (id : Nat) (timers : List Timer) :
    (clearTimeout id timers).Sublist timers :=
  List.filter_sublist _

theorem mem_clearTimeout (id : Nat) (timers : List Timer) (tm : Timer) :
    tm ∈ clearTimeout id timers ↔ tm ∈ timers ∧ tm.id ≠ id := by
  simp [clearTimeout, List.mem_filter]

/-! ## Well-formedness is preserved -/

theorem wf_frame {s s' : State} (h : WellFormed s)
    (hnext : s'.nextTimer = s.nextTimer) (htimers : s'.timers.Sublist s.timers)
    (hels : ∀ el, timerOf s'.els el = timerOf s.els el) (hlen : s'.els.length = s.els.length)
    (hcont : ∀ ch', s'.container = some ch' → ∃ ch, s.container = some ch ∧ ch' ⊆ ch) :
    WellFormed s' where
  next_pos := by rw [hnext]; exact h.next_pos
  timer_lt := fun tm htm => by rw [hnext]; exact h.timer_lt tm (htimers.subset htm)
  timer_nodup := (h.timer_nodup).sublist (htimers.map _)
  el_timer := fun el id hid => by rw [hnext]; exact h.el_timer el id (by rw [← hels]; exact hid)
  auto_timer := fun tm htm el hcb => by
    rw [hels]; exact h.auto_timer tm (htimers.subset htm) el hcb
  child_lt := fun ch' hch' el hel => by
    obtain ⟨ch, hch, hsub⟩ := hcont ch' hch'
    rw [hlen]; exact h.child_lt ch hch el (hsub hel)

theorem wf_updateReminderBtnState {s : State} (h : WellFormed s) :
    WellFormed (updateReminderBtnState s) := by
  obtain ⟨h1, h2, h3, h4, -⟩ := updateReminderBtnState_frame s
  exact wf_frame h h4 (by rw [h3]) (by intro el; rw [h2]) (by rw [h2])
    (by intro ch' hch'; exact ⟨ch', by rw [← h1]; exact hch', List.Subset.refl _⟩)

theorem wf_toast {s : State} (h : WellFormed s) (m : String) (o : ToastOptions) :
    WellFormed (toast m o s) := by
  obtain ⟨ht, hn⟩ := toast_timers m o s
  have he := toast_els m o s
  obtain ⟨hc, -⟩ := toast_frame m o s
  constructor
  · rw [hn]; omega
  · intro tm htm
    rw [hn]
    rw [ht] at htm
    rcases List.mem_append.1 htm with h1 | h1
    · have := h.timer_lt tm h1; omega
    · simp only [List.mem_singleton] at h1; subst h1; simp
  · rw [ht, List.map_append, List.nodup_append]
    refine ⟨h.timer_nodup, by simp, ?_⟩
    intro a ha hb
    simp only [List.map_cons, List.map_nil, List.mem_singleton] at hb
    obtain ⟨tm, htm, rfl⟩ := List.mem_map.1 ha
    have := h.timer_lt tm htm
    omega
  · intro el id hid
    rw [hn]
    rw [he, timerOf_append] at hid
    split_ifs at hid with h1 h2
    · have := h.el_timer el id hid; omega
    · simp only [Option.some.injEq] at hid
      subst hid
      exact ⟨h.next_pos, by omega⟩
  · intro tm htm el hcb
    rw [ht] at htm
    rw [he, timerOf_append]
    rcases List.mem_append.1 htm with h1 | h1
    · have h2 := h.auto_timer tm h1 el hcb
      rw [if_pos (timerOf_some_lt _ _ _ h2)]
      exact h2
    · simp only [List.mem_singleton] at h1
      subst h1
      simp only [TimerCallback.autoRemove.injEq] at hcb
      subst hcb
      simp
  · intro ch' hch' el hel
    rw [hc] at hch'
    simp only [Option.some.injEq] at hch'
    subst hch'
    rw [he]
    simp only [List.length_append, List.length_singleton]
    rcases List.mem_append.1 hel with h1 | h1
    · cases hcs : s.container with
      | none => rw [hcs] at h1; simp at h1
      | some ch =>
        rw [hcs] at h1
        have := h.child_lt ch hcs el h1
        omega
    · simp only [List.mem_singleton] at h1; omega

theorem removeToast_eq (el : Nat) (s : State) (e : ToastEl) (he : s.els[el]? = some e) :
    removeToast el s =
    { s with
      timers := (if e.toastTimer ≠ 0 then clearTimeout e.toastTimer s.timers else s.timers)
        ++ [{ id := s.nextTimer, delay := 200, callback := .detach el }]
      nextTimer := s.nextTimer + 1
      els := s.els.set el { e with opacity := "0", transform := "translateY(8px)" }
      trace := s.trace ++ [.removeToast el] } := by
  unfold removeToast
  rw [he]

theorem removeToast_none (el : Nat) (s : State) (he : s.els[el]? = none) :
    removeToast el s = s := by
  unfold removeToast
  rw [he]

theorem cleared_sublist (e : ToastEl) (timers : List Timer) :
    (if e.toastTimer ≠ 0 then clearTimeout e.toastTimer timers else timers).Sublist timers := by
  split_ifs
  · exact clearTimeout_sublist _ _
  · exact List.Sublist.refl _

theorem wf_removeToast {s : State} (h : WellFormed s) (el : Nat) :
    WellFormed (removeToast el s) := by
  cases he : s.els[el]? with
  | none => rw [removeToast_none el s he]; exact h
  | some e =>
    rw [removeToast_eq el s e he]
    have hsub := cleared_sublist e s.timers
    constructor
    · simp only; omega
    · intro tm htm
      simp only at htm ⊢
      rcases List.mem_append.1 htm with h1 | h1
      · have := h.timer_lt tm (hsub.subset h1); omega
      · simp only [List.mem_singleton] at h1; subst h1; simp
    · simp only
      rw [List.map_append, List.nodup_append]
      refine ⟨(h.timer_nodup).sublist (hsub.map _), by simp, ?_⟩
      intro a ha hb
      simp only [List.map_cons, List.map_nil, List.mem_singleton] at hb
      obtain ⟨tm, htm, rfl⟩ := List.mem_map.1 ha
      have := h.timer_lt tm (hsub.subset htm)
      omega
    · intro k id hid
      simp only at hid ⊢
      rw [timerOf_restyle s.els el e he] at hid
      have := h.el_timer k id hid
      omega
    · intro tm htm k hcb
      simp only at htm ⊢
      rw [timerOf_restyle s.els el e he]
      rcases List.mem_append.1 htm with h1 | h1
      · exact h.auto_timer tm (hsub.subset h1) k hcb
      · simp only [List.mem_singleton] at h1
        subst h1
        cases hcb
    · intro ch hch k hk
      simp only at hch ⊢
      rw [List.length_set]
      exact h.child_lt ch hch k hk

theorem wf_same {s s' : State} (h : WellFormed s)
    (hn : s'.nextTimer = s.nextTimer) (ht : s'.timers = s.timers) (he : s'.els = s.els)
    (hc : s'.container = s.container) : WellFormed s' :=
  wf_frame h hn (by rw [ht]) (by intro el; rw [he]) (by rw [he])
    (by intro ch' hch'; exact ⟨ch', by rw [← hc]; exact hch', List.Subset.refl _⟩)

theorem wf_detach {s : State} (h : WellFormed s) (el : Nat) : WellFormed (detach el s) := by
  refine wf_frame h rfl (List.Sublist.refl _) (fun _ => rfl) rfl ?_
  intro ch' hch'
  unfold detach at hch'
  cases hc : s.container with
  | none => rw [hc] at hch'; simp at hch'
  | some ch =>
    rw [hc] at hch'
    simp only [Option.map_some', Option.some.injEq] at hch'
    subst hch'
    exact ⟨ch, rfl, fun x hx => (List.mem_filter.1 hx).1⟩

theorem fadeIn_timerOf (els : List ToastEl) (k el : Nat) :
    timerOf (fadeIn els k) el = timerOf els el ∧ (fadeIn els k).length = els.length := by
  unfold fadeIn
  cases hk : els[k]? with
  | none => exact ⟨rfl, rfl⟩
  | some e => exact ⟨timerOf_restyle els k e hk _ _ el, List.length_set _ _ _⟩

theorem foldl_fadeIn (frames : List Nat) (els : List ToastEl) :
    (∀ el, timerOf (frames.foldl fadeIn els) el = timerOf els el) ∧
    (frames.foldl fadeIn els).length = els.length := by
  induction frames generalizing els with
  | nil => exact ⟨fun _ => rfl, rfl⟩
  | cons k ks ih =>
    simp only [List.foldl_cons]
    obtain ⟨h1, h2⟩ := ih (fadeIn els k)
    exact ⟨fun el => by rw [h1, (fadeIn_timerOf els k el).1],
      by rw [h2, (fadeIn_timerOf els k 0).2]⟩

theorem wf_runCallback {s : State} (h : WellFormed s) (cb : Callback) :
    WellFormed (runCallback cb s) := by
  cases cb
  unfold runCallback
  apply wf_toast
  apply wf_updateReminderBtnState
  exact wf_same h rfl rfl rfl rfl

theorem wf_handleReminderClick {s : State} (h : WellFormed s) (now : Int) :
    WellFormed (handleReminderClick now s) := by
  unfold handleReminderClick
  split_ifs
  · apply wf_toast
    exact wf_same h rfl rfl rfl rfl
  · apply wf_toast
    apply wf_updateReminderBtnState
    exact wf_same h rfl rfl rfl rfl

theorem wf_onDomContentLoaded {s : State} (h : WellFormed s) :
    WellFormed (onDomContentLoaded s) := by
  unfold onDomContentLoaded
  have h1 : WellFormed { updateReminderBtnState s with ready := true } :=
    wf_same (wf_updateReminderBtnState h) rfl rfl rfl rfl
  simp only
  split_ifs
  · apply wf_toast
    exact wf_same h1 rfl rfl rfl rfl
  · exact wf_same h1 rfl rfl rfl rfl

theorem wf_actionClick {s : State} (h : WellFormed s) (el : Nat) (cb : Callback) :
    WellFormed (actionClick el cb s) := by
  unfold actionClick
  apply wf_removeToast
  apply wf_removeToast
  apply wf_runCallback
  exact wf_same h rfl rfl rfl rfl

theorem wf_cleared {s : State} (h : WellFormed s) (id : Nat) (tr : List Effect) :
    WellFormed { s with timers := clearTimeout id s.timers, trace := tr } :=
  wf_frame h rfl (clearTimeout_sublist _ _) (fun _ => rfl) rfl
    (fun ch' hch' => ⟨ch', hch', List.Subset.refl _⟩)

theorem wf_fireTimer {s : State} (h : WellFormed s) (tm : Timer) :
    WellFormed (fireTimer tm s) := by
  unfold fireTimer
  cases tm.callback with
  | autoRemove el => exact wf_removeToast (wf_cleared h _ _) el
  | detach el => exact wf_detach (wf_cleared h _ _) el

theorem wf_step {s : State} (h : WellFormed s) (e : Event) : WellFormed (step s e) := by
  cases e with
  | domContentLoaded =>
    simp only [step]
    split_ifs
    · exact h
    · exact wf_onDomContentLoaded h
  | clickReminderBtn now =>
    simp only [step]
    split_ifs
    · exact wf_handleReminderClick h now
    · exact h
  | clickToast el =>
    simp only [step]
    split_ifs
    · exact wf_removeToast h el
    · exact h
  | clickAction el =>
    simp only [step]
    split_ifs
    · cases s.els[el]? with
      | none => exact h
      | some e =>
        cases ha : e.action with
        | none => simp only [ha]; exact h
        | some a => simp only [ha]; exact wf_actionClick h el a.2
    · exact h
  | timer id =>
    simp only [step]
    cases s.timers.find? (fun tm => decide (tm.id = id)) with
    | none => exact h
    | some tm => exact wf_fireTimer h tm
  | animationFrame =>
    simp only [step]
    obtain ⟨h1, h2⟩ := foldl_fadeIn s.frames s.els
    exact wf_frame h rfl (List.Sublist.refl _) h1 h2
      (fun ch' hch' => ⟨ch', hch', List.Subset.refl _⟩)

theorem wf_run {s : State} (h : WellFormed s) (events : List Event) :
    WellFormed (run s events) := by
  induction events generalizing s with
  | nil => exact h
  | cons e es ih => exact ih (wf_step h e)

theorem wf_of_initial {s : State} (h : initial s) : WellFormed s := by
  obtain ⟨-, he, ht, -, -, hc, hn⟩ := h
  constructor
  · exact hn
  · intro tm htm; rw [ht] at htm; simp at htm
  · rw [ht]; simp
  · intro el id hid; rw [he] at hid; simp [timerOf] at hid
  · intro tm htm; rw [ht] at htm; simp at htm
  · intro ch hch el hel
    rcases hc with hc | hc
    · rw [hc] at hch; simp at hch
    · rw [hc] at hch
      simp only [Option.some.injEq] at hch
      subst hch
      simp at hel

/-- Every reachable state is well formed. -/
theorem wf_of_reachable {s : State} (h : reachable s) : WellFormed s := by
  obtain ⟨s0, events, h0, rfl⟩ := h
  exact wf_run (wf_of_initial h0) events

theorem reachable_step {s : State} (h : reachable s) (e : Event) : reachable (step s e) := by
  obtain ⟨s0, events, h0, rfl⟩ := h
  exact ⟨s0, events ++ [e], h0, by simp [run, List.foldl_append]⟩

theorem freshPage_initial (ls : Storage) : initial (freshPage ls) := by
  unfold initial freshPage
  simp

/-! ## No automatic-removal timer comes back -/

theorem later_refl (el : Nat) (s : State) : later el s s :=
  ⟨le_refl _, fun _ h => Or.inl h, fun _ h => Or.inl h⟩

theorem later_trans {el : Nat} {s s' s'' : State} (h1 : later el s s') (h2 : later el s' s'') :
    later el s s'' := by
  obtain ⟨a1, b1, c1⟩ := h1
  obtain ⟨a2, b2, c2⟩ := h2
  refine ⟨le_trans a1 a2, ?_, ?_⟩
  · intro tm htm
    rcases b2 tm htm with h | h
    · exact b1 tm h
    · exact Or.inr h
  · intro k hk
    rcases c2 k hk with h | h
    · exact c1 k h
    · exact Or.inr (le_trans a1 h)

theorem later_same (el : Nat) {s s' : State} (hl : s'.els.length = s.els.length)
    (ht : s'.timers.Sublist s.timers) (hc : ∀ k ∈ s'.container.getD [], k ∈ s.container.getD []) :
    later el s s' :=
  ⟨by rw [hl], fun tm h => Or.inl (ht.subset h), fun k h => Or.inl (hc k h)⟩

theorem later_storage (el : Nat) (s : State) (ls : Storage) :
    later el s { s with storage := ls } :=
  later_same el rfl (List.Sublist.refl _) (fun _ h => h)

theorem later_updateReminderBtnState (el : Nat) (s : State) :
    later el s (updateReminderBtnState s) := by
  obtain ⟨h1, h2, h3, -, -⟩ := updateReminderBtnState_frame s
  exact later_same el (by rw [h2]) (by rw [h3]) (by rw [h1]; exact fun _ h => h)

theorem later_toast (el : Nat) (m : String) (o : ToastOptions) (s : State)
    (hlt : el < s.els.length) : later el s (toast m o s) := by
  refine ⟨?_, ?_, ?_⟩
  · rw [toast_els]; simp
  · intro tm htm
    rw [(toast_timers m o s).1] at htm
    rcases List.mem_append.1 htm with h | h
    · exact Or.inl h
    · right
      simp only [List.mem_singleton] at h
      subst h
      simp only [ne_eq, TimerCallback.autoRemove.injEq]
      omega
  · intro k hk
    rw [(toast_frame m o s).1] at hk
    simp only [Option.getD_some] at hk
    rcases List.mem_append.1 hk with h | h
    · exact Or.inl h
    · right
      simp only [List.mem_singleton] at h
      omega

theorem later_removeToast (el k : Nat) (s : State) : later el s (removeToast k s) := by
  cases he : s.els[k]? with
  | none => rw [removeToast_none k s he]; exact later_refl el s
  | some e =>
    rw [removeToast_eq k s e he]
    refine ⟨?_, ?_, ?_⟩
    · simp only [List.length_set]; exact le_refl _
    · intro tm htm
      simp only at htm
      rcases List.mem_append.1 htm with h | h
      · exact Or.inl ((cleared_sublist e s.timers).subset h)
      · right
        simp only [List.mem_singleton] at h
        subst h
        simp
    · intro j hj; exact Or.inl hj

theorem later_detach (el k : Nat) (s : State) : later el s (detach k s) := by
  refine later_same el rfl (List.Sublist.refl _) ?_
  intro j hj
  unfold detach at hj
  cases hc : s.container with
  | none => rw [hc] at hj; simp at hj
  | some ch =>
    rw [hc] at hj
    simp only [Option.map_some', Option.getD_some] at hj
    simpa using (List.mem_filter.1 hj).1

theorem later_runCallback (el : Nat) (cb : Callback) (s : State) (hlt : el < s.els.length) :
    later el s (runCallback cb s) := by
  cases cb
  unfold runCallback
  have h1 : later el s (updateReminderBtnState
      { s with
        storage := clearReminder s.storage
        trace := s.trace ++ [.callbackRan .removeReminder] }) :=
    later_trans (later_same el rfl (List.Sublist.refl _) (fun _ h => h))
      (later_updateReminderBtnState el
        { s with
          storage := clearReminder s.storage
          trace := s.trace ++ [.callbackRan .removeReminder] })
  refine later_trans h1 (later_toast el _ _ _ ?_)
  exact lt_of_lt_of_le hlt h1.1

theorem later_handleReminderClick (el : Nat) (now : Int) (s : State) (hlt : el < s.els.length) :
    later el s (handleReminderClick now s) := by
  unfold handleReminderClick
  split_ifs
  · have h1 : later el s { s with storage := (getReminder s.storage).2 } :=
      later_same el rfl (List.Sublist.refl _) (fun _ h => h)
    exact later_trans h1 (later_toast el _ _ _ hlt)
  · have h1 : later el s (updateReminderBtnState
        { s with storage := saveReminder now (getReminder s.storage).2 }) :=
      later_trans (later_storage el s _) (later_updateReminderBtnState el _)
    exact later_trans h1 (later_toast el _ _ _ (lt_of_lt_of_le hlt h1.1))

theorem later_onDomContentLoaded (el : Nat) (s : State) (hlt : el < s.els.length) :
    later el s (onDomContentLoaded s) := by
  unfold onDomContentLoaded
  have h1 : later el s { updateReminderBtnState s with ready := true } :=
    later_trans (later_updateReminderBtnState el s)
      (later_same el rfl (List.Sublist.refl _) (fun _ h => h))
  simp only
  split_ifs
  · have h2 : later el s
        { ({ updateReminderBtnState s with ready := true } : State) with
          storage := (getReminder (updateReminderBtnState s).storage).2 } :=
      later_trans h1 (later_same el rfl (List.Sublist.refl _) (fun _ h => h))
    exact later_trans h2 (later_toast el _ _ _ (lt_of_lt_of_le hlt h2.1))
  · exact later_trans h1 (later_same el rfl (List.Sublist.refl _) (fun _ h => h))

theorem later_actionClick (el k : Nat) (cb : Callback) (s : State) (hlt : el < s.els.length) :
    later el s (actionClick k cb s) := by
  unfold actionClick
  have h0 : later el s { s with trace := s.trace ++ [.actionCallback k cb] } :=
    later_same el rfl (List.Sublist.refl _) (fun _ h => h)
  have h1 := later_trans h0 (later_runCallback el cb _ hlt)
  exact later_trans (later_trans h1 (later_removeToast el k _)) (later_removeToast el k _)

theorem later_fireTimer (el : Nat) (tm : Timer) (s : State) : later el s (fireTimer tm s) := by
  unfold fireTimer
  have h0 : ∀ tr, later el s { s with timers := clearTimeout tm.id s.timers, trace := tr } :=
    fun tr => later_same el rfl (clearTimeout_sublist _ _) (fun _ h => h)
  cases tm.callback with
  | autoRemove k => exact later_trans (h0 _) (later_removeToast el k _)
  | detach k => exact later_trans (h0 _) (later_detach el k _)

theorem later_step (el : Nat) (s : State) (e : Event) (hlt : el < s.els.length) :
    later el s (step s e) := by
  cases e with
  | domContentLoaded =>
    simp only [step]
    split_ifs
    · exact later_refl el s
    · exact later_onDomContentLoaded el s hlt
  | clickReminderBtn now =>
    simp only [step]
    split_ifs
    · exact later_handleReminderClick el now s hlt
    · exact later_refl el s
  | clickToast k =>
    simp only [step]
    split_ifs
    · exact later_removeToast el k s
    · exact later_refl el s
  | clickAction k =>
    simp only [step]
    split_ifs
    · cases s.els[k]? with
      | none => exact later_refl el s
      | some e =>
        cases ha : e.action with
        | none => simp only [ha]; exact later_refl el s
        | some a => simp only [ha]; exact later_actionClick el k a.2 s hlt
    · exact later_refl el s
  | timer id =>
    simp only [step]
    cases s.timers.find? (fun tm => decide (tm.id = id)) with
    | none => exact later_refl el s
    | some tm => exact later_fireTimer el tm s
  | animationFrame =>
    simp only [step]
    exact later_same el (foldl_fadeIn s.frames s.els).2 (List.Sublist.refl _) (fun _ h => h)

theorem later_run (el : Nat) (events : List Event) (s : State) (hlt : el < s.els.length) :
    later el s (run s events) := by
  induction events generalizing s with
  | nil => exact later_refl el s
  | cons e es ih =>
    have h1 := later_step el s e hlt
    exact later_trans h1 (ih (step s e) (lt_of_lt_of_le hlt h1.1))

theorem noAutoRemoval_later {el : Nat} {s s' : State} (h : noAutoRemoval el s)
    (hl : later el s s') : noAutoRemoval el s' := by
  refine ⟨lt_of_lt_of_le h.1 hl.1, ?_⟩
  intro tm htm
  rcases hl.2.1 tm htm with h1 | h1
  · exact h.2 tm h1
  · exact h1

theorem attached_iff (el : Nat) (s : State) :
    attached el s = true ↔ el ∈ s.container.getD [] := by
  unfold attached
  cases s.container <;> simp

theorem detached_later {el : Nat} {s s' : State} (hd : attached el s = false)
    (hlt : el < s.els.length) (hl : later el s s') : attached el s' = false := by
  by_contra hn
  have ha : attached el s' = true := by
    cases h : attached el s' with
    | true => rfl
    | false => exact absurd h hn
  rcases hl.2.2 el ((attached_iff el s').1 ha) with h | h
  · rw [(attached_iff el s).2 h] at hd
    exact absurd hd (by decide)
  · omega

/-- `removeToast(el)` leaves no automatic-removal timer of `el` active. -/
theorem removeToast_noAutoRemoval (el : Nat) (s : State) (h : WellFormed s)
    (hlt : el < s.els.length) : noAutoRemoval el (removeToast el s) := by
  have hsome : s.els[el]? = some (s.els[el]) := List.getElem?_eq_getElem hlt
  rw [removeToast_eq el s _ hsome]
  refine ⟨by simp only [List.length_set]; exact hlt, ?_⟩
  intro tm htm hcb
  simp only at htm
  rcases List.mem_append.1 htm with h1 | h1
  · have hmem : tm ∈ s.timers := (cleared_sublist _ s.timers).subset h1
    have hto := h.auto_timer tm hmem el hcb
    have hid : (s.els[el]).toastTimer = tm.id := by
      unfold timerOf at hto
      rw [hsome] at hto
      simpa using hto
    have hpos := (h.el_timer el tm.id hto).1
    have hne : (s.els[el]).toastTimer ≠ 0 := by omega
    rw [if_pos hne] at h1
    exact ((mem_clearTimeout _ _ _).1 h1).2 hid.symm
  · simp only [List.mem_singleton] at h1
    subst h1
    cases hcb

/-! ## The trace -/

/-- The body of the action callback records itself once, and nothing else. -/
theorem runCallback_trace (cb : Callback) (s : State) :
    (runCallback cb s).trace = s.trace ++ [.callbackRan cb] := by
  cases cb
  unfold runCallback
  rw [(toast_frame _ _ _).2, (updateReminderBtnState_frame _).2.2.2.2]

theorem handleReminderClick_trace (now : Int) (s : State) :
    (handleReminderClick now s).trace = s.trace := by
  unfold handleReminderClick
  split_ifs
  · rw [(toast_frame _ _ _).2]
  · rw [(toast_frame _ _ _).2, (updateReminderBtnState_frame _).2.2.2.2]

theorem onDomContentLoaded_trace (s : State) : (onDomContentLoaded s).trace = s.trace := by
  unfold onDomContentLoaded
  simp only
  split_ifs
  · rw [(toast_frame _ _ _).2]
    exact (updateReminderBtnState_frame s).2.2.2.2
  · exact (updateReminderBtnState_frame s).2.2.2.2

theorem removeToast_trace (el : Nat) (s : State) (hlt : el < s.els.length) :
    (removeToast el s).trace = s.trace ++ [.removeToast el] := by
  rw [removeToast_eq el s _ (List.getElem?_eq_getElem hlt)]

theorem removeToast_length (el : Nat) (s : State) :
    (removeToast el s).els.length = s.els.length := by
  cases he : s.els[el]? with
  | none => rw [removeToast_none el s he]
  | some e => rw [removeToast_eq el s e he]; simp

theorem removeToast_count (k : Nat) (x : Effect) (s : State) (hx : x ≠ .removeToast k) :
    (removeToast k s).trace.count x = s.trace.count x := by
  cases he : s.els[k]? with
  | none => rw [removeToast_none k s he]
  | some e =>
    rw [removeToast_eq k s e he]
    simp only [List.count_append]
    rw [List.count_singleton]
    simp [Ne.symm hx]

theorem actionClick_trace (el : Nat) (cb : Callback) (s : State) (hlt : el < s.els.length) :
    (actionClick el cb s).trace
      = s.trace ++ [.actionCallback el cb, .callbackRan cb, .removeToast el, .removeToast el] := by
  unfold actionClick
  have h1 := later_runCallback el cb { s with trace := s.trace ++ [.actionCallback el cb] } hlt
  have l1 : el < (runCallback cb { s with trace := s.trace ++ [.actionCallback el cb] }).els.length :=
    lt_of_lt_of_le hlt h1.1
  have l2 : el < (removeToast el
      (runCallback cb { s with trace := s.trace ++ [.actionCallback el cb] })).els.length := by
    rw [removeToast_length]; exact l1
  rw [removeToast_trace el _ l2, removeToast_trace el _ l1, runCallback_trace]
  simp

theorem find_timer (s : State) (h : WellFormed s) (tm : Timer) (htm : tm ∈ s.timers) :
    s.timers.find? (fun t => decide (t.id = tm.id)) = some tm := by
  cases hf : s.timers.find? (fun t => decide (t.id = tm.id)) with
  | none =>
    have := List.find?_eq_none.1 hf tm htm
    simp at this
  | some t =>
    have h1 : t.id = tm.id := by simpa using List.find?_some hf
    have h2 : t ∈ s.timers := List.mem_of_find?_eq_some hf
    rw [List.inj_on_of_nodup_map h.timer_nodup h2 htm h1]

/-- A step taken while no automatic-removal timer of `el` is active does not run
the automatic-removal callback of `el`. -/
theorem step_fired_count (el : Nat) (s : State) (e : Event) (h : noAutoRemoval el s) :
    (step s e).trace.count (.autoRemovalFired el) = s.trace.count (.autoRemovalFired el) := by
  cases e with
  | domContentLoaded =>
    simp only [step]
    split_ifs
    · rfl
    · rw [onDomContentLoaded_trace]
  | clickReminderBtn now =>
    simp only [step]
    split_ifs
    · rw [handleReminderClick_trace]
    · rfl
  | clickToast k =>
    simp only [step]
    split_ifs
    · exact removeToast_count k _ s (by simp)
    · rfl
  | clickAction k =>
    simp only [step]
    split_ifs
    · cases s.els[k]? with
      | none => rfl
      | some e =>
        cases ha : e.action with
        | none => simp only [ha]
        | some a =>
          simp only [ha]
          unfold actionClick
          rw [removeToast_count k _ _ (by simp), removeToast_count k _ _ (by simp),
            runCallback_trace]
          simp [List.count_append, List.count_cons]
    · rfl
  | timer id =>
    simp only [step]
    cases hf : s.timers.find? (fun tm => decide (tm.id = id)) with
    | none => rfl
    | some tm =>
      have hne := h.2 tm (List.mem_of_find?_eq_some hf)
      simp only
      unfold fireTimer
      cases hcb : tm.callback with
      | autoRemove k =>
        simp only
        rw [removeToast_count k _ _ (by simp)]
        simp only [List.count_append]
        rw [List.count_singleton]
        have : k ≠ el := by
          rintro rfl
          exact hne hcb
        simp [this]
      | detach k =>
        simp only [detach]
        simp only [List.count_append]
        rw [List.count_singleton]
        simp
  | animationFrame => rfl

theorem run_quiet (el : Nat) (events : List Event) (s : State) (h : noAutoRemoval el s) :
    noAutoRemoval el (run s events) ∧
    (run s events).trace.count (.autoRemovalFired el) = s.trace.count (.autoRemovalFired el) := by
  induction events generalizing s with
  | nil => exact ⟨h, rfl⟩
  | cons e es ih =>
    have h1 := noAutoRemoval_later h (later_step el s e h.1)
    obtain ⟨h2, h3⟩ := ih (step s e) h1
    exact ⟨h2, by rw [← step_fired_count el s e h]; exact h3⟩

theorem run_append (s : State) (es more : List Event) :
    run s (es ++ more) = run (run s es) more := by
  simp [run, List.foldl_append]

theorem getElem?_lt {els : List ToastEl} {el : Nat} {e : ToastEl} (h : els[el]? = some e) :
    el < els.length := by
  by_contra hn
  rw [List.getElem?_eq_none (by omega)] at h
  simp at h

/-! ## Dismissing a toast -/

theorem step_clickToast (s : State) (el : Nat) (hatt : attached el s = true) :
    step s (.clickToast el) = removeToast el s := by
  simp [step, hatt]

theorem step_clickAction (s : State) (el : Nat) (e : ToastEl) (a : String × Callback)
    (hatt : attached el s = true) (hel : s.els[el]? = some e) (hact : e.action = some a) :
    step s (.clickAction el) = actionClick el a.2 s := by
  simp [step, hatt, hel, hact]

theorem step_timer (s : State) (h : WellFormed s) (tm : Timer) (htm : tm ∈ s.timers) :
    step s (.timer tm.id) = fireTimer tm s := by
  simp [step, find_timer s h tm htm]

theorem actionClick_noAutoRemoval (s : State) (h : WellFormed s) (el : Nat) (cb : Callback)
    (hlt : el < s.els.length) : noAutoRemoval el (actionClick el cb s) := by
  unfold actionClick
  have h0 : WellFormed { s with trace := s.trace ++ [.actionCallback el cb] } :=
    wf_same h rfl rfl rfl rfl
  have h1 := wf_runCallback h0 cb
  have l1 := lt_of_lt_of_le hlt
    (later_runCallback el cb { s with trace := s.trace ++ [.actionCallback el cb] } hlt).1
  have h2 := wf_removeToast h1 el
  have l2 : el < (removeToast el
      (runCallback cb { s with trace := s.trace ++ [.actionCallback el cb] })).els.length := by
    rw [removeToast_length]; exact l1
  exact removeToast_noAutoRemoval el _ h2 l2

theorem fireTimer_autoRemove (s : State) (tm : Timer) (el : Nat) (hcb : tm.callback = .autoRemove el) :
    fireTimer tm s = removeToast el
      { s with timers := clearTimeout tm.id s.timers, trace := s.trace ++ [.autoRemovalFired el] } := by
  unfold fireTimer
  rw [hcb]

theorem fireTimer_autoRemove_trace (s : State) (tm : Timer) (el : Nat)
    (hcb : tm.callback = .autoRemove el) (hlt : el < s.els.length) :
    (fireTimer tm s).trace = s.trace ++ [.autoRemovalFired el, .removeToast el] := by
  rw [fireTimer_autoRemove s tm el hcb]
  have h := removeToast_trace el
    { s with timers := clearTimeout tm.id s.timers, trace := s.trace ++ [.autoRemovalFired el] } hlt
  rw [h]
  simp

theorem fireTimer_autoRemove_quiet (s : State) (h : WellFormed s) (tm : Timer) (el : Nat)
    (hcb : tm.callback = .autoRemove el) (hlt : el < s.els.length) :
    noAutoRemoval el (fireTimer tm s) := by
  rw [fireTimer_autoRemove s tm el hcb]
  exact removeToast_noAutoRemoval el
    { s with timers := clearTimeout tm.id s.timers, trace := s.trace ++ [.autoRemovalFired el] }
    (wf_cleared h _ _) hlt

theorem fireTimer_detach (s : State) (tm : Timer) (el : Nat) (hcb : tm.callback = .detach el) :
    fireTimer tm s = detach el
      { s with timers := clearTimeout tm.id s.timers, trace := s.trace ++ [.detachFired el] } := by
  unfold fireTimer
  rw [hcb]

theorem attached_detach (el : Nat) (s : State) : attached el (detach el s) = false := by
  unfold attached detach
  cases s.container <;> simp

/-- The claim C8 fails for a click on the action button: in the page reached by
`DOMContentLoaded`, a first click on the reminder button and a second one (which
shows the toast offering "Remove"), one click on that action button runs the
removal effect of `removeToast` twice and schedules two detachments of the toast. -/
theorem action_click_runs_removal_twice :
    (run (freshPage [])
      [.domContentLoaded, .clickReminderBtn 1700000000000, .clickReminderBtn 1700000000100,
       .clickAction 1]).trace
      = [.actionCallback 1 .removeReminder, .callbackRan .removeReminder, .removeToast 1,
         .removeToast 1] ∧
    (run (freshPage [])
      [.domContentLoaded, .clickReminderBtn 1700000000000, .clickReminderBtn 1700000000100,
       .clickAction 1]).timers.filter (fun tm => decide (tm.callback = .detach 1))
      = [{ id := 4, delay := 200, callback := .detach 1 },
         { id := 5, delay := 200, callback := .detach 1 }] := by
  set_option maxRecDepth 1000000 in decide

/-- C8, amended: for a toast in the document, a click on the toast and the expiry
of its timer each run the removal effect of `removeToast` once, and one click on
its action button runs it twice (once from the button's listener, once from the
toast's own click listener). After any of these dismissals no automatic-removal
timer of the toast is active, so in every continuation the timer callback of the
toast never runs again. Once the toast is out of the document it stays out, so it
is detached at most once. -/
theorem dismissal_cancels_timer (s : State) (el : Nat) (e : ToastEl) (hreach : reachable s)
    (hatt : attached el s = true) (hel : s.els[el]? = some e) :
    (step s (.clickToast el)).trace = s.trace ++ [.removeToast el] ∧
    (∀ tm ∈ s.timers, tm.callback = .autoRemove el →
      (step s (.timer tm.id)).trace = s.trace ++ [.autoRemovalFired el, .removeToast el]) ∧
    (∀ label cb, e.action = some (label, cb) →
      (step s (.clickAction el)).trace
        = s.trace ++ [.actionCallback el cb, .callbackRan cb, .removeToast el, .removeToast el]) ∧
    (∀ d, (d = .clickToast el ∨ (d = .clickAction el ∧ e.action ≠ none) ∨
        (∃ tm ∈ s.timers, tm.callback = .autoRemove el ∧ d = .timer tm.id)) →
      ∀ events,
        (∀ tm ∈ (run (step s d) events).timers, tm.callback ≠ .autoRemove el) ∧
        (run (step s d) events).trace.count (.autoRemovalFired el)
          = (step s d).trace.count (.autoRemovalFired el)) ∧
    (∀ events more, attached el (run s events) = false →
      attached el (run s (events ++ more)) = false) := by
  have hwf := wf_of_reachable hreach
  have hlt : el < s.els.length := getElem?_lt hel
  refine ⟨?_, ?_, ?_, ?_, ?_⟩
  · rw [step_clickToast s el hatt, removeToast_trace el s hlt]
  · intro tm htm hcb
    rw [step_timer s hwf tm htm, fireTimer_autoRemove_trace s tm el hcb hlt]
  · intro label cb hact
    rw [step_clickAction s el e (label, cb) hatt hel hact, actionClick_trace el cb s hlt]
  · intro d hd events
    have hno : noAutoRemoval el (step s d) := by
      rcases hd with rfl | ⟨rfl, hact⟩ | ⟨tm, htm, hcb, rfl⟩
      · rw [step_clickToast s el hatt]
        exact removeToast_noAutoRemoval el s hwf hlt
      · cases ha : e.action with
        | none => exact absurd ha hact
        | some a =>
          rw [step_clickAction s el e a hatt hel ha]
          exact actionClick_noAutoRemoval s hwf el a.2 hlt
      · rw [step_timer s hwf tm htm]
        exact fireTimer_autoRemove_quiet s hwf tm el hcb hlt
    obtain ⟨h1, h2⟩ := run_quiet el events (step s d) hno
    exact ⟨h1.2, h2⟩
  · intro events more hdet
    rw [run_append]
    have l1 := lt_of_lt_of_le hlt (later_run el events s hlt).1
    exact detached_later hdet l1 (later_run el more _ l1)

/-! ## A scheduled detachment stays scheduled until it runs -/

theorem kept_frame {tm : Timer} {s s' : State} (h : keptTimer tm s)
    (ht : s'.timers = s.timers) (he : ∀ k, timerOf s'.els k = timerOf s.els k) :
    keptTimer tm s' :=
  ⟨by rw [ht]; exact h.1, fun k id hid => h.2 k id (by rw [← he]; exact hid)⟩

theorem kept_updateReminderBtnState {tm : Timer} {s : State} (h : keptTimer tm s) :
    keptTimer tm (updateReminderBtnState s) := by
  obtain ⟨-, h2, h3, -, -⟩ := updateReminderBtnState_frame s
  exact kept_frame h h3 (by intro k; rw [h2])

theorem kept_toast {tm : Timer} {s : State} (hw : WellFormed s) (h : keptTimer tm s)
    (m : String) (o : ToastOptions) : keptTimer tm (toast m o s) := by
  constructor
  · rw [(toast_timers m o s).1]
    exact List.mem_append_left _ h.1
  · intro k id hid
    rw [toast_els, timerOf_append] at hid
    split_ifs at hid with h1 h2
    · exact h.2 k id hid
    · simp only [Option.some.injEq] at hid
      have := hw.timer_lt tm h.1
      omega

theorem kept_removeToast {tm : Timer} {s : State} (h : keptTimer tm s) (k : Nat) :
    keptTimer tm (removeToast k s) := by
  cases he : s.els[k]? with
  | none => rw [removeToast_none k s he]; exact h
  | some e =>
    rw [removeToast_eq k s e he]
    have hne : e.toastTimer ≠ tm.id := h.2 k e.toastTimer (by unfold timerOf; rw [he]; rfl)
    constructor
    · simp only
      refine List.mem_append_left _ ?_
      split_ifs
      · exact (mem_clearTimeout _ _ _).2 ⟨h.1, fun hc => hne hc.symm⟩
      · exact h.1
    · intro j id hid
      simp only at hid
      rw [timerOf_restyle s.els k e he] at hid
      exact h.2 j id hid

theorem kept_detach {tm : Timer} {s : State} (h : keptTimer tm s) (k : Nat) :
    keptTimer tm (detach k s) :=
  kept_frame h rfl (fun _ => rfl)

theorem kept_runCallback {tm : Timer} {s : State} (hw : WellFormed s) (h : keptTimer tm s)
    (cb : Callback) : keptTimer tm (runCallback cb s) := by
  cases cb
  unfold runCallback
  have h0 : keptTimer tm
      { s with
        storage := clearReminder s.storage
        trace := s.trace ++ [.callbackRan .removeReminder] } :=
    kept_frame h rfl (fun _ => rfl)
  have w0 : WellFormed
      { s with
        storage := clearReminder s.storage
        trace := s.trace ++ [.callbackRan .removeReminder] } :=
    wf_same hw rfl rfl rfl rfl
  exact kept_toast (wf_updateReminderBtnState w0) (kept_updateReminderBtnState h0) _ _

theorem kept_handleReminderClick {tm : Timer} {s : State} (hw : WellFormed s)
    (h : keptTimer tm s) (now : Int) : keptTimer tm (handleReminderClick now s) := by
  unfold handleReminderClick
  split_ifs
  · have h0 : keptTimer tm { s with storage := (getReminder s.storage).2 } :=
      kept_frame h rfl (fun _ => rfl)
    have w0 : WellFormed { s with storage := (getReminder s.storage).2 } :=
      wf_same hw rfl rfl rfl rfl
    exact kept_toast w0 h0 _ _
  · have h0 : keptTimer tm { s with storage := saveReminder now (getReminder s.storage).2 } :=
      kept_frame h rfl (fun _ => rfl)
    have w0 : WellFormed { s with storage := saveReminder now (getReminder s.storage).2 } :=
      wf_same hw rfl rfl rfl rfl
    exact kept_toast (wf_updateReminderBtnState w0) (kept_updateReminderBtnState h0) _ _

theorem kept_onDomContentLoaded {tm : Timer} {s : State} (hw : WellFormed s)
    (h : keptTimer tm s) : keptTimer tm (onDomContentLoaded s) := by
  unfold onDomContentLoaded
  have h1 : keptTimer tm { updateReminderBtnState s with ready := true } :=
    kept_frame (kept_updateReminderBtnState h) rfl (fun _ => rfl)
  have w1 : WellFormed { updateReminderBtnState s with ready := true } :=
    wf_same (wf_updateReminderBtnState hw) rfl rfl rfl rfl
  simp only
  split_ifs
  · have h2 : keptTimer tm
        { ({ updateReminderBtnState s with ready := true } : State) with
          storage := (getReminder (updateReminderBtnState s).storage).2 } :=
      kept_frame h1 rfl (fun _ => rfl)
    have w2 : WellFormed
        { ({ updateReminderBtnState s with ready := true } : State) with
          storage := (getReminder (updateReminderBtnState s).storage).2 } :=
      wf_same w1 rfl rfl rfl rfl
    exact kept_toast w2 h2 _ _
  · exact kept_frame h1 rfl (fun _ => rfl)

theorem kept_actionClick {tm : Timer} {s : State} (hw : WellFormed s) (h : keptTimer tm s)
    (el : Nat) (cb : Callback) : keptTimer tm (actionClick el cb s) := by
  unfold actionClick
  have h0 : keptTimer tm { s with trace := s.trace ++ [.actionCallback el cb] } :=
    kept_frame h rfl (fun _ => rfl)
  have w0 : WellFormed { s with trace := s.trace ++ [.actionCallback el cb] } :=
    wf_same hw rfl rfl rfl rfl
  exact kept_removeToast (kept_removeToast (kept_runCallback w0 h0 cb) el) el

theorem kept_fireTimer {tm : Timer} {s : State} (h : keptTimer tm s) (tm' : Timer)
    (hne : tm.id ≠ tm'.id) : keptTimer tm (fireTimer tm' s) := by
  unfold fireTimer
  have h0 : ∀ tr, keptTimer tm { s with timers := clearTimeout tm'.id s.timers, trace := tr } :=
    fun tr => ⟨(mem_clearTimeout _ _ _).2 ⟨h.1, hne⟩, h.2⟩
  cases tm'.callback with
  | autoRemove k => exact kept_removeToast (h0 _) k
  | detach k => exact kept_detach (h0 _) k

/-- Every event other than the expiry of `tm` itself leaves `tm` scheduled. -/
theorem kept_step {tm : Timer} {s : State} (hw : WellFormed s) (h : keptTimer tm s)
    (e : Event) (hne : e ≠ .timer tm.id) : keptTimer tm (step s e) := by
  cases e with
  | domContentLoaded =>
    simp only [step]
    split_ifs
    · exact h
    · exact kept_onDomContentLoaded hw h
  | clickReminderBtn now =>
    simp only [step]
    split_ifs
    · exact kept_handleReminderClick hw h now
    · exact h
  | clickToast k =>
    simp only [step]
    split_ifs
    · exact kept_removeToast h k
    · exact h
  | clickAction k =>
    simp only [step]
    split_ifs
    · cases s.els[k]? with
      | none => exact h
      | some e =>
        cases ha : e.action with
        | none => simp only [ha]; exact h
        | some a => simp only [ha]; exact kept_actionClick hw h k a.2
    · exact h
  | timer id =>
    simp only [step]
    cases hf : s.timers.find? (fun t => decide (t.id = id)) with
    | none => exact h
    | some tm' =>
      have hid : tm'.id = id := by simpa using List.find?_some hf
      refine kept_fireTimer h tm' ?_
      intro hc
      exact hne (by rw [hc, hid])
  | animationFrame =>
    simp only [step]
    exact kept_frame h rfl (foldl_fadeIn s.frames s.els).1

/-- While the toast is in the document its scheduled detachment stays scheduled;
this holds across every event. -/
theorem detach_step (tm : Timer) (el : Nat) (hcb : tm.callback = .detach el) (s : State)
    (hw : WellFormed s) (hlt : el < s.els.length)
    (h : attached el s = false ∨ keptTimer tm s) (e : Event) :
    attached el (step s e) = false ∨ keptTimer tm (step s e) := by
  rcases h with h | h
  · exact Or.inl (detached_later h hlt (later_step el s e hlt))
  · by_cases he : e = .timer tm.id
    · left
      subst he
      rw [step_timer s hw tm h.1, fireTimer_detach s tm el hcb]
      exact attached_detach el _
    · exact Or.inr (kept_step hw h e he)

theorem detach_run (tm : Timer) (el : Nat) (hcb : tm.callback = .detach el)
    (events : List Event) (s : State) (hw : WellFormed s) (hlt : el < s.els.length)
    (h : attached el s = false ∨ keptTimer tm s) :
    attached el (run s events) = false ∨ keptTimer tm (run s events) := by
  induction events generalizing s with
  | nil => exact h
  | cons e es ih =>
    exact ih (step s e) (wf_step hw e)
      (lt_of_lt_of_le hlt (later_step el s e hlt).1) (detach_step tm el hcb s hw hlt h e)

/-- Whatever happens before and after, once the scheduled detachment of `el` has
expired the toast is out of the document. -/
theorem detach_fires (tm : Timer) (el : Nat) (hcb : tm.callback = .detach el) (s : State)
    (hw : WellFormed s) (hlt : el < s.els.length) (h : keptTimer tm s)
    (before after : List Event) :
    attached el (run s (before ++ .timer tm.id :: after)) = false := by
  rw [run_append]
  have hw1 := wf_run hw before
  have hlt1 := lt_of_lt_of_le hlt (later_run el before s hlt).1
  have h1 := detach_run tm el hcb before s hw hlt (Or.inr h)
  show attached el (run (step (run s before) (.timer tm.id)) after) = false
  have hlt2 := lt_of_lt_of_le hlt1 (later_step el (run s before) (.timer tm.id) hlt1).1
  have h2 : attached el (step (run s before) (.timer tm.id)) = false := by
    rcases h1 with h1 | h1
    · exact detached_later h1 hlt1 (later_step el _ _ hlt1)
    · rw [step_timer _ hw1 tm h1.1, fireTimer_detach _ tm el hcb]
      exact attached_detach el _
  exact detached_later h2 hlt2 (later_run el after _ hlt2)

theorem removeToast_detach_mem (el : Nat) (s : State) (hlt : el < s.els.length) :
    ({ id := s.nextTimer, delay := 200, callback := .detach el } : Timer)
      ∈ (removeToast el s).timers := by
  rw [removeToast_eq el s _ (List.getElem?_eq_getElem hlt)]
  simp

/-- The detachment that `removeToast(el)` schedules cannot be cancelled. -/
theorem removeToast_kept (el : Nat) (s : State) (hw : WellFormed s) (hlt : el < s.els.length) :
    keptTimer { id := s.nextTimer, delay := 200, callback := .detach el } (removeToast el s) := by
  have hsome : s.els[el]? = some (s.els[el]) := List.getElem?_eq_getElem hlt
  refine ⟨removeToast_detach_mem el s hlt, ?_⟩
  intro k id hid
  rw [removeToast_eq el s _ hsome] at hid
  simp only at hid
  rw [timerOf_restyle s.els el _ hsome] at hid
  have := (hw.el_timer k id hid).2
  simp only
  omega

theorem pageWithActionToast_reachable : reachable pageWithActionToast :=
  ⟨freshPage [(REMINDER_KEY, "\x7b\"enabled\":true\x7d")], actionToastEvents, freshPage_initial _, rfl⟩

theorem dismissal_cancels_timer_witness :
    (step pageWithActionToast (.clickToast 1)).trace
      = pageWithActionToast.trace ++ [.removeToast 1] ∧
    (step pageWithActionToast (.clickAction 1)).trace
      = pageWithActionToast.trace
        ++ [.actionCallback 1 .removeReminder, .callbackRan .removeReminder, .removeToast 1,
            .removeToast 1] ∧
    (∀ tm ∈ (run (step pageWithActionToast (.clickToast 1)) [.timer 2, .animationFrame]).timers,
      tm.callback ≠ .autoRemove 1) :=
  ⟨(dismissal_cancels_timer pageWithActionToast 1
      { message := "Reminder is already saved.", action := some ("Remove", .removeReminder),
        opacity := "0", transform := "translateY(8px)", toastTimer := 2 }
      pageWithActionToast_reachable (by decide) (by decide)).1,
   (dismissal_cancels_timer pageWithActionToast 1
      { message := "Reminder is already saved.", action := some ("Remove", .removeReminder),
        opacity := "0", transform := "translateY(8px)", toastTimer := 2 }
      pageWithActionToast_reachable (by decide) (by decide)).2.2.1 "Remove" .removeReminder rfl,
   ((dismissal_cancels_timer pageWithActionToast 1
      { message := "Reminder is already saved.", action := some ("Remove", .removeReminder),
        opacity := "0", transform := "translateY(8px)", toastTimer := 2 }
      pageWithActionToast_reachable (by decide) (by decide)).2.2.2.1 (.clickToast 1) (Or.inl rfl)
      [.timer 2, .animationFrame]).1⟩

/-! ## The action button -/

theorem runCallback_length (cb : Callback) (s : State) :
    (runCallback cb s).els.length = s.els.length + 1 := by
  cases cb
  unfold runCallback
  rw [toast_els, (updateReminderBtnState_frame _).2.1]
  simp

/-- C9: for a toast in the document that has an action button, one click on the
button invokes the callback exactly once: the body of the callback runs once, and
the page gains exactly the one toast that this body shows. The click leaves a
detachment of the toast scheduled after 200 ms; whatever happens in between, that
timer stays scheduled while the toast is in the document, and once it has expired
the toast is out of the document for good. In every continuation no
automatic-removal timer of the toast is active and its callback never runs. -/
theorem action_click_once (s : State) (el : Nat) (e : ToastEl) (label : String) (cb : Callback)
    (hreach : reachable s) (hatt : attached el s = true) (hel : s.els[el]? = some e)
    (hact : e.action = some (label, cb)) :
    (step s (.clickAction el)).trace.count (.callbackRan cb)
      = s.trace.count (.callbackRan cb) + 1 ∧
    (step s (.clickAction el)).trace.count (.actionCallback el cb)
      = s.trace.count (.actionCallback el cb) + 1 ∧
    (step s (.clickAction el)).els.length = s.els.length + 1 ∧
    (∃ tm ∈ (step s (.clickAction el)).timers, tm.callback = .detach el ∧ tm.delay = 200 ∧
      (∀ events, attached el (run (step s (.clickAction el)) events) = false ∨
        tm ∈ (run (step s (.clickAction el)) events).timers) ∧
      (∀ before after,
        attached el (run (step s (.clickAction el)) (before ++ .timer tm.id :: after))
          = false)) ∧
    (∀ events,
      (∀ tm ∈ (run (step s (.clickAction el)) events).timers, tm.callback ≠ .autoRemove el) ∧
      (run (step s (.clickAction el)) events).trace.count (.autoRemovalFired el)
        = s.trace.count (.autoRemovalFired el)) := by
  have hwf := wf_of_reachable hreach
  have hlt : el < s.els.length := getElem?_lt hel
  have hstep := step_clickAction s el e (label, cb) hatt hel hact
  have hwf3 : WellFormed (step s (.clickAction el)) := wf_step hwf _
  have hl3 : later el s (step s (.clickAction el)) := later_step el s _ hlt
  have hlt3 : el < (step s (.clickAction el)).els.length := lt_of_lt_of_le hlt hl3.1
  have htrace := actionClick_trace el cb s hlt
  rw [← hstep] at htrace
  have w0 : WellFormed { s with trace := s.trace ++ [.actionCallback el cb] } :=
    wf_same hwf rfl rfl rfl rfl
  have w1 := wf_runCallback w0 cb
  have l1 := lt_of_lt_of_le hlt
    (later_runCallback el cb { s with trace := s.trace ++ [.actionCallback el cb] } hlt).1
  have w2 := wf_removeToast w1 el
  have l2 : el < (removeToast el
      (runCallback cb { s with trace := s.trace ++ [.actionCallback el cb] })).els.length := by
    rw [removeToast_length]; exact l1
  refine ⟨?_, ?_, ?_, ?_, ?_⟩
  · rw [htrace]
    simp [List.count_append, List.count_cons]
  · rw [htrace]
    simp [List.count_append, List.count_cons]
  · rw [hstep]
    unfold actionClick
    rw [removeToast_length, removeToast_length, runCallback_length]
  · have hkept := removeToast_kept el _ w2 l2
    obtain ⟨tm, hk, hcb, hdelay⟩ : ∃ tm, keptTimer tm (step s (.clickAction el)) ∧
        tm.callback = .detach el ∧ tm.delay = 200 :=
      ⟨_, by rw [hstep]; exact hkept, rfl, rfl⟩
    refine ⟨tm, hk.1, hcb, hdelay, ?_, ?_⟩
    · intro events
      rcases detach_run tm el hcb events _ hwf3 hlt3 (Or.inr hk) with h | h
      · exact Or.inl h
      · exact Or.inr h.1
    · intro before after
      exact detach_fires tm el hcb _ hwf3 hlt3 hk before after
  · intro events
    have hno : noAutoRemoval el (step s (.clickAction el)) := by
      rw [hstep]; exact actionClick_noAutoRemoval s hwf el cb hlt
    obtain ⟨h1, h2⟩ := run_quiet el events _ hno
    refine ⟨h1.2, ?_⟩
    rw [h2, htrace]
    simp [List.count_append, List.count_cons]

theorem action_click_once_witness :
    (step pageWithActionToast (.clickAction 1)).trace.count (.callbackRan .removeReminder)
      = pageWithActionToast.trace.count (.callbackRan .removeReminder) + 1 ∧
    (step pageWithActionToast (.clickAction 1)).els.length
      = pageWithActionToast.els.length + 1 ∧
    (∃ tm ∈ (step pageWithActionToast (.clickAction 1)).timers,
      tm.callback = .detach 1 ∧ tm.delay = 200 ∧
      (∀ events, attached 1 (run (step pageWithActionToast (.clickAction 1)) events) = false ∨
        tm ∈ (run (step pageWithActionToast (.clickAction 1)) events).timers) ∧
      (∀ before after,
        attached 1 (run (step pageWithActionToast (.clickAction 1))
          (before ++ .timer tm.id :: after)) = false)) ∧
    (∀ tm ∈ (run (step pageWithActionToast (.clickAction 1)) [.timer 2, .timer 5]).timers,
      tm.callback ≠ .autoRemove 1) :=
  ⟨(action_click_once pageWithActionToast 1
      { message := "Reminder is already saved.", action := some ("Remove", .removeReminder),
        opacity := "0", transform := "translateY(8px)", toastTimer := 2 }
      "Remove" .removeReminder pageWithActionToast_reachable (by decide) (by decide) rfl).1,
   (action_click_once pageWithActionToast 1
      { message := "Reminder is already saved.", action := some ("Remove", .removeReminder),
        opacity := "0", transform := "translateY(8px)", toastTimer := 2 }
      "Remove" .removeReminder pageWithActionToast_reachable (by decide) (by decide) rfl).2.2.1,
   (action_click_once pageWithActionToast 1
      { message := "Reminder is already saved.", action := some ("Remove", .removeReminder),
        opacity := "0", transform := "translateY(8px)", toastTimer := 2 }
      "Remove" .removeReminder pageWithActionToast_reachable (by decide) (by decide) rfl).2.2.2.1,
   ((action_click_once pageWithActionToast 1
      { message := "Reminder is already saved.", action := some ("Remove", .removeReminder),
        opacity := "0", transform := "translateY(8px)", toastTimer := 2 }
      "Remove" .removeReminder pageWithActionToast_reachable (by decide) (by decide) rfl).2.2.2.2
      [.timer 2, .timer 5]).1⟩

/-- On the page that shows the toast offering "Remove", a click on the action
button followed by an animation frame, the expiry of another timer and the expiry
of the scheduled detachment takes the toast out of the document, and the callback
has shown its one toast "Reminder removed.". -/
theorem action_click_example :
    attached 1 pageWithActionToast = true ∧
    attached 1 (run pageWithActionToast
      [.clickAction 1, .animationFrame, .timer 1, .timer 5]) = false ∧
    (run pageWithActionToast [.clickAction 1]).els.map (fun e => e.message)
      = ["Welcome back! Your reminder is still saved ✓", "Reminder is already saved.",
         "Reminder removed."] := by
  decide

end VividSydney
